import Mathlib

/-!
Verification of the climatology weight builder (proc_02.py) and the
stochastic disaggregation engine (prcalc_03.py) of the
python-climatology-calculation repository.  All fractional quantities are
modelled over ℚ; pandas timestamps are modelled as an absolute hour index
together with its calendar projection.
-/

namespace Climatology

/- Batteries seals the arithmetic of `Rat` as irreducible; re-open it so that
concrete runs of the model reduce inside `decide`/`rfl`. -/
attribute [local semireducible] Rat.mul Rat.add Rat.sub Rat.inv Rat.ofScientific

/-- Timestamp of a record: `abs` is the instant measured in hours (two pandas
timestamps are equal iff they denote the same instant), the remaining fields
are the calendar projection used by `.dt.year/.month/.day/.hour`. -/
structure Timestamp where
  abs : Nat
  year : Nat
  month : Nat
  day : Nat
  hour : Nat
deriving DecidableEq, Inhabited

/-- Row of the historical hourly series (`time`, `pr`), time as absolute hour. -/
structure HourRecord where
  time : Nat
  pr : ℚ
deriving DecidableEq

/-- Row of the historical 3-hourly series (`time`, `pr`). -/
structure BlockRecord where
  time : Timestamp
  pr : ℚ
deriving DecidableEq

/-- First-occurrence deduplication, the behaviour of `pandas.Series.unique`;
`seen` accumulates the values already emitted. -/
def uniqFirstAux [DecidableEq α] (seen : List α) : List α → List α
  | [] => []
  | x :: xs => if x ∈ seen then uniqFirstAux seen xs else x :: uniqFirstAux (x :: seen) xs

/-- First-occurrence deduplication of a list, as `pandas.Series.unique`. -/
def uniqFirst [DecidableEq α] (l : List α) : List α := uniqFirstAux [] l

/-- Stable insertion of `x` into `l`: before the first element not below `x`. -/
def insertSorted (le : α → α → Bool) (x : α) : List α → List α
  | [] => [x]
  | y :: ys => if le x y then x :: y :: ys else y :: insertSorted le x ys

/-- Stable sort by the Boolean relation `le`; models `DataFrame.sort_values`
(whose tie order we do not rely on anywhere). -/
def sortStable (le : α → α → Bool) : List α → List α
  | [] => []
  | x :: xs => insertSorted le x (sortStable le xs)

/-- Round a rational to the nearest integer, ties to even: the rounding used by
`numpy`/`pandas` `.round` and by the `%.4f`/`float_format` output formatting. -/
def roundHalfEven (x : ℚ) : ℤ :=
  if x - ⌊x⌋ < 1/2 then ⌊x⌋
  else if (1 : ℚ)/2 < x - ⌊x⌋ then ⌊x⌋ + 1
  else if ⌊x⌋ % 2 = 0 then ⌊x⌋ else ⌊x⌋ + 1

/-- Round a rational to 4 decimal places (`.round(4)` / `float_format` `%.4f`). -/
def round4 (x : ℚ) : ℚ := ((roundHalfEven (x * 10000) : ℤ) : ℚ) / 10000

/-! ## proc_02.py — climatology weight builder -/

/-- One entry of `weights_data` built by `match_hourly_to_3hourly`.  The
`year_month_day_hour` string `f"{year}-{month:02d}-{day:02d} {hour+i:02d}:00"`
is represented by its components `(year, month, day, labelHour)`, with
`labelHour = block_start.hour + i` exactly as in the source (no date
roll-over is applied to the label). -/
structure WeightObs where
  datetime : Timestamp
  year : Nat
  month : Nat
  day : Nat
  hour : Nat
  labelHour : Nat
  hourInBlock : Nat
  hourlyPr : ℚ
  blockTotalPr : ℚ
  threehourlyPr : ℚ
  weight : ℚ
deriving DecidableEq, Inhabited

/-- Look up the hourly value at absolute hour `t`: the first matching row
(`hourly_match.iloc[0]`), or `0.0` when there is none. -/
def lookupHourly (hourly : List HourRecord) (t : Nat) : ℚ :=
  match hourly.find? (fun r => r.time == t) with
  | some r => r.pr
  | none => 0

/-- The three constituent hourly amounts of the block starting at `b.time`
(`block_start`, `block_start + 1h`, `block_start + 2h`). -/
def blockVals (hourly : List HourRecord) (b : BlockRecord) : List ℚ :=
  [lookupHourly hourly b.time.abs,
   lookupHourly hourly (b.time.abs + 1),
   lookupHourly hourly (b.time.abs + 2)]

/-- The weight observation appended for position `i` of block `b`, where `s`
is `hourly_sum` and `vals` the three hourly values. -/
def mkObs (b : BlockRecord) (s : ℚ) (vals : List ℚ) (i : Nat) : WeightObs :=
  { datetime := b.time
    year := b.time.year
    month := b.time.month
    day := b.time.day
    hour := b.time.hour
    labelHour := b.time.hour + i
    hourInBlock := i
    hourlyPr := vals.getD i 0
    blockTotalPr := s
    threehourlyPr := b.pr
    weight := vals.getD i 0 / s }

/-- Observations contributed by one 3-hour block: none when `hourly_sum` is
not positive, otherwise one observation per `i ∈ {0,1,2}` (the
`for i, hourly_val in enumerate(hourly_values)` loop unrolled). -/
def blockObs (hourly : List HourRecord) (b : BlockRecord) : List WeightObs :=
  let vals := blockVals hourly b
  let s := vals.sum
  if 0 < s then [mkObs b s vals 0, mkObs b s vals 1, mkObs b s vals 2] else []

/-- `match_hourly_to_3hourly`: pair every 3-hour block with its hourly values
and emit the per-block weight observations. -/
def matchHourlyTo3Hourly (hourly : List HourRecord) (threehourly : List BlockRecord) :
    List WeightObs :=
  threehourly.flatMap (blockObs hourly)

/-- The `groupby` key of `aggregate_weights`:
`['year_month_day_hour', 'year', 'month', 'day', 'hour', 'hour_in_3h_block']`
(the label string is represented by the `(year, month, day, labelHour)`
components it is built from). -/
structure AggKey where
  year : Nat
  month : Nat
  day : Nat
  hour : Nat
  labelHour : Nat
  hourInBlock : Nat
deriving DecidableEq

def aggKey (o : WeightObs) : AggKey :=
  ⟨o.year, o.month, o.day, o.hour, o.labelHour, o.hourInBlock⟩

/-- One row of the aggregated weight table.  `weight_std` is computed by the
source for diagnostics only, is dropped by `save_csv` and read by nothing
downstream, so it is not modelled (sample std of a 1-element group is NaN,
which ℚ cannot represent). -/
structure AggRow where
  year : Nat
  month : Nat
  day : Nat
  hour : Nat
  labelHour : Nat
  hourInBlock : Nat
  weightMean : ℚ
  count : Nat
  totalHourlyPr : ℚ
  totalBlockPr : ℚ
  weight : ℚ
deriving DecidableEq

def keyGroup (os : List WeightObs) (k : AggKey) : List WeightObs :=
  os.filter (fun o => aggKey o = k)

/-- The aggregated row for key `k`: mean/sums over the group, `.round(4)`
applied to every aggregated column, and `weight` set to `weight_mean`
(`aggregated['weight'] = aggregated['weight_mean']`). -/
def mkAggRow (os : List WeightObs) (k : AggKey) : AggRow :=
  let g := keyGroup os k
  let wmean := round4 ((g.map (·.weight)).sum / (g.length : ℚ))
  { year := k.year
    month := k.month
    day := k.day
    hour := k.hour
    labelHour := k.labelHour
    hourInBlock := k.hourInBlock
    weightMean := wmean
    count := g.length
    totalHourlyPr := round4 ((g.map (·.hourlyPr)).sum)
    totalBlockPr := round4 ((g.map (·.blockTotalPr)).sum)
    weight := wmean }

/-- `aggregate_weights`: one output row per distinct group key.  (pandas
`groupby` sorts the group keys; no claim below depends on row order, so keys
are enumerated in first-occurrence order.) -/
def aggregateWeights (os : List WeightObs) : List AggRow :=
  (uniqFirst (os.map aggKey)).map (mkAggRow os)

/-- Components of a `year_month_day_hour` label string. -/
structure Label where
  year : Nat
  month : Nat
  day : Nat
  labelHour : Nat
deriving DecidableEq

def rowLabel (r : AggRow) : Label := ⟨r.year, r.month, r.day, r.labelHour⟩

/-- Renormalize one `(label, hour_in_block)` group of `normalize_weights`:
divide by the group's weight sum when it is positive. -/
def renormGroup (blockData : List AggRow) : List AggRow :=
  let total := (blockData.map (·.weight)).sum
  if 0 < total then blockData.map (fun r => { r with weight := r.weight / total })
  else blockData

/-- The rows `normalize_weights` appends for one label: for each
`hour_in_block ∈ [0, 1, 2]`, the per-label per-slot subset renormalized when
nonempty. -/
def normLabel (t : List AggRow) (L : Label) : List AggRow :=
  let hourData := t.filter (fun r => rowLabel r = L)
  [0, 1, 2].flatMap (fun i =>
    let blockData := hourData.filter (fun r => r.hourInBlock = i)
    if blockData.length > 0 then renormGroup blockData else [])

/-- `normalize_weights`.  The `else` branch for an empty per-label subset
dereferences the undefined variable `day_num` (`year, month, day_num =
day_num.split('-')`), which in Python raises `UnboundLocalError`; it is
modelled as an error value.  The final `pd.concat` raises `ValueError` when
the collected list is empty, which happens exactly for an empty input table. -/
def normalizeWeights (t : List AggRow) : Except String (List AggRow) := do
  let labels := uniqFirst (t.map rowLabel)
  let groups ← labels.mapM (fun L =>
    if (t.filter (fun r => rowLabel r = L)).length > 0 then
      Except.ok (normLabel t L)
    else
      Except.error "UnboundLocalError: day_num referenced before assignment")
  if groups.isEmpty then
    Except.error "ValueError: No objects to concatenate"
  else
    Except.ok groups.flatten

/-- Row of the saved weight-table CSV
(`year_month_day_hour, year, month, day, hour, hour_in_3h_block, weight`). -/
structure CsvRow where
  year : Nat
  month : Nat
  day : Nat
  hour : Nat
  labelHour : Nat
  hourInBlock : Nat
  weight : ℚ
deriving DecidableEq, Inhabited

/-- Projection of a table row to a CSV row: `save_csv` first overwrites
`weight` with `weight_mean`, then selects the output columns; the
`float_format='%.4f'` write rounds the weight to 4 decimals. -/
def csvOfAgg (r : AggRow) : CsvRow :=
  ⟨r.year, r.month, r.day, r.hour, r.labelHour, r.hourInBlock, round4 r.weightMean⟩

/-- The `sort_values(['year', 'month', 'day', 'hour'])` comparison. -/
def csvLe (a b : CsvRow) : Bool :=
  if a.year ≠ b.year then a.year < b.year
  else if a.month ≠ b.month then a.month < b.month
  else if a.day ≠ b.day then a.day < b.day
  else a.hour ≤ b.hour

/-- `save_csv`: overwrite `weight` with `weight_mean`, project the output
columns, sort by `(year, month, day, hour)` and write with 4-decimal floats. -/
def saveCsv (t : List AggRow) : List CsvRow :=
  sortStable csvLe (t.map csvOfAgg)

/-- The weight-builder pipeline of `proc_02.main`: load (keeping only
positive `pr`, as `load_aggregated_data` does), pair, aggregate, normalize,
save. -/
def weightBuilder (hourly : List HourRecord) (threehourly : List BlockRecord) :
    Except String (List CsvRow) := do
  let h := hourly.filter (fun r => 0 < r.pr)
  let b := threehourly.filter (fun r => 0 < r.pr)
  let norm ← normalizeWeights (aggregateWeights (matchHourlyTo3Hourly h b))
  Except.ok (saveCsv norm)

/-! ## prcalc_03.py — stochastic disaggregation engine

The numpy generator `np.random.default_rng(seed)` is abstracted by a
function `g : Nat → Nat → Nat`: `g seed k` is the index drawn by the `k`-th
`rng.choice` call of the generator seeded with `seed` (every concrete PCG64
run corresponds to one such function).  `rng.choice(arr)` over a nonempty
array is `arr[g seed k % arr.length]`. -/

/-- A future 3-hour precipitation record `(cell_id, time, pr)`. -/
structure FutureRecord where
  cellId : Nat
  time : Timestamp
  pr : ℚ
deriving DecidableEq, Inhabited

/-- The match levels of the sampler (`EGZAKT` = exact, `HAVI` = monthly,
`EGYENLETES` = uniform, `HIBA` = error). -/
inductive MatchLevel where
  | EGZAKT
  | HAVI
  | EGYENLETES
  | HIBA
  | EGZAKT_AVG
  | HAVI_AVG
deriving DecidableEq, Inhabited

/-- The `f"{match_level}_AVG"` suffixing (applied only to EGZAKT/HAVI). -/
def avgOf : MatchLevel → MatchLevel
  | .EGZAKT => .EGZAKT_AVG
  | .HAVI => .HAVI_AVG
  | l => l

/-- Result of weight selection for one record: the weight triple, the match
level and the `year_month_day_hour` reference (None for the fallbacks). -/
structure SelResult where
  w0 : ℚ
  w1 : ℚ
  w2 : ℚ
  level : MatchLevel
  ref : Option Label
deriving DecidableEq, Inhabited

/-- The pre-filled default of `ultra_fast_weight_selection`: uniform weights,
level `EGYENLETES`, no reference date. -/
def uniformSel : SelResult := ⟨1/3, 1/3, 1/3, .EGYENLETES, none⟩

/-- `key_exact` of a weight-table row: `(month, day, hour)` (the zero-padded
string key is injective on these components). -/
def keyExactW (w : CsvRow) : Nat × Nat × Nat := (w.month, w.day, w.hour)

/-- Monthly grouping key `(month, hour)` of a weight-table row. -/
def keyMonthlyW (w : CsvRow) : Nat × Nat := (w.month, w.hour)

/-- `key_exact` of a future record, from `time.dt.month/.day/.hour`. -/
def keyExactFut (r : FutureRecord) : Nat × Nat × Nat :=
  (r.time.month, r.time.day, r.time.hour)

/-- Monthly key of a future record. -/
def keyMonthlyFut (r : FutureRecord) : Nat × Nat := (r.time.month, r.time.hour)

/-- Hierarchical lookup: the exact `(month, day, hour)` group when the key is
in `weights_dict_exact`, else the monthly group, else nothing (a `groupby`
dictionary has a key iff the corresponding subset is nonempty). -/
def selectFor (w : List CsvRow) (r : FutureRecord) :
    Option (List CsvRow × MatchLevel) :=
  let pwE := w.filter (fun x => keyExactW x = keyExactFut r)
  if pwE ≠ [] then some (pwE, .EGZAKT)
  else
    let pwM := w.filter (fun x => keyMonthlyW x = keyMonthlyFut r)
    if pwM ≠ [] then some (pwM, .HAVI) else none

/-- `period_weights['year'].unique()` then `rng.choice`: the year drawn with
random index `draw`. -/
def yearChosen (pw : List CsvRow) (draw : Nat) : Nat :=
  let years := uniqFirst (pw.map (·.year))
  years.getD (draw % years.length) 0

/-- The rows of the chosen year (`period_weights[period_weights['year'] == chosen_year]`). -/
def yearDataOf (pw : List CsvRow) (y : Nat) : List CsvRow :=
  pw.filter (fun x => x.year = y)

/-- `len(year_data) == 3 and set(year_data['hour_in_3h_block']) == {0, 1, 2}`. -/
def completeTriple (l : List CsvRow) : Bool :=
  l.length == 3 && l.all (fun x => x.hourInBlock < 3)
    && ([0, 1, 2].all (fun i => l.any (fun x => x.hourInBlock == i)))

/-- The `year_month_day_hour` label of a weight-table row. -/
def labelOf (x : CsvRow) : Label := ⟨x.year, x.month, x.day, x.labelHour⟩

/-- The unique row with a given `hour_in_3h_block` of a complete triple
(the `sort_values('hour_in_3h_block')` of 3 rows covering {0,1,2} puts them
in this order). -/
def hibRowD (l : List CsvRow) (i : Nat) : CsvRow :=
  (l.find? (fun x => x.hourInBlock == i)).getD default

/-- The rows of `pw` at a given `hour_in_3h_block`. -/
def hibGroup (pw : List CsvRow) (i : Nat) : List CsvRow :=
  pw.filter (fun x => x.hourInBlock == i)

/-- `period_weights.groupby('hour_in_3h_block')['weight'].mean()` at slot `i`. -/
def hibMean (pw : List CsvRow) (i : Nat) : ℚ :=
  ((hibGroup pw i).map (·.weight)).sum / ((hibGroup pw i).length : ℚ)

/-- `set(avg_by_hour.index) == {0, 1, 2}`: every row's slot is in {0,1,2} and
each of the three slots occurs. -/
def avgPopulated (pw : List CsvRow) : Bool :=
  pw.all (fun x => x.hourInBlock < 3)
    && ([0, 1, 2].all (fun i => pw.any (fun x => x.hourInBlock == i)))

/-- The averaged fallback of `ultra_fast_weight_selection`: mean per slot over
all candidates, normalized when the total is positive; when the index set is
not `{0,1,2}` or the total is not positive, the record keeps its pre-filled
uniform default (level `EGYENLETES`). -/
def sampleAvg (pw : List CsvRow) (level : MatchLevel) : SelResult :=
  if avgPopulated pw then
    let m0 := hibMean pw 0
    let m1 := hibMean pw 1
    let m2 := hibMean pw 2
    let total := m0 + m1 + m2
    if 0 < total then
      ⟨m0 / total, m1 / total, m2 / total, avgOf level,
        some (labelOf (pw.headD default))⟩
    else uniformSel
  else uniformSel

/-- One record's weight selection in `ultra_fast_weight_selection`: draw a
year once; use its triple when complete, otherwise fall back immediately to
the candidate average (there is no retry loop in this function). -/
def sampleFrom (pw : List CsvRow) (level : MatchLevel) (draw : Nat) : SelResult :=
  let yd := yearDataOf pw (yearChosen pw draw)
  if completeTriple yd then
    ⟨(hibRowD yd 0).weight, (hibRowD yd 1).weight, (hibRowD yd 2).weight,
      level, some (labelOf (hibRowD yd 0))⟩
  else sampleAvg pw level

/-- `ultra_fast_weight_selection` over a batch: `g` is the batch's generator
stream and `k` counts its `rng.choice` calls (a call is made exactly for the
records that match the exact or monthly dictionary). -/
def ultraFastWeightSelection (w : List CsvRow) (g : Nat → Nat) :
    List FutureRecord → Nat → List SelResult
  | [], _ => []
  | r :: rs, k =>
    match selectFor w r with
    | none => uniformSel :: ultraFastWeightSelection w g rs k
    | some (pw, level) => sampleFrom pw level (g k) :: ultraFastWeightSelection w g rs (k + 1)

/-- One output row of the disaggregation (columns of the result DataFrame). -/
structure OutRow where
  cellId : Nat
  time3h : Timestamp
  time1h : Nat
  pr3h : ℚ
  hourInBlock : Nat
  weightUsed : ℚ
  level : MatchLevel
  ref : Option Label
  pr1h : ℚ
deriving DecidableEq, Inhabited

/-- The weight a selection assigns to hour offset `j ∈ {0,1,2}`. -/
def selWeight (s : SelResult) : Nat → ℚ
  | 0 => s.w0
  | 1 => s.w1
  | _ => s.w2

/-- The 3 hourly rows produced for one future record (the
`for hour_offset in range(3)` loop): hourly time = block time + offset,
`pr_hourly = pr * weight_used[offset]`. -/
def recordRows (r : FutureRecord) (s : SelResult) : List OutRow :=
  [0, 1, 2].map (fun j =>
    ⟨r.cellId, r.time, r.time.abs + j, r.pr, j, selWeight s j, s.level, s.ref,
      r.pr * selWeight s j⟩)

/-- `disaggregate_precipitation`: process the records in batches of `bs`
(the source fixes `batch_size = 10000`; it is a parameter here so that the
batching sensitivity of the output can be stated).  Batch `bi` starts at
`start = bi * bs` and uses a fresh generator seeded
`int(random_seeds[start]) = seed + start`. -/
def disaggregatePrecipitation (w : List CsvRow) (g : Nat → Nat → Nat)
    (seed : Nat) (bs : Nat) (recs : List FutureRecord) : List OutRow :=
  let nBatches := (recs.length + bs - 1) / bs
  (List.range nBatches).flatMap (fun bi =>
    let start := bi * bs
    let batch := (recs.drop start).take bs
    let sels := ultraFastWeightSelection w (g (seed + start)) batch 0
    (batch.zip sels).flatMap (fun p => recordRows p.1 p.2))

/-- The per-record selection results of a batched run, in record order. -/
def batchedSels (w : List CsvRow) (g : Nat → Nat → Nat)
    (seed : Nat) (bs : Nat) (recs : List FutureRecord) : List SelResult :=
  let nBatches := (recs.length + bs - 1) / bs
  (List.range nBatches).flatMap (fun bi =>
    let start := bi * bs
    ultraFastWeightSelection w (g (seed + start)) ((recs.drop start).take bs) 0)

/-! Legacy per-record sampler `stochastic_weight_selection` (defined in the
source but not called by `disaggregate_precipitation`).  It resets the
global `random.seed(random_seed)` on entry, so its draw stream `h` is a
function of the seed alone, and it retries up to `max_attempts = 10`. -/

/-- The retry loop of `stochastic_weight_selection`: attempt `k` draws a year
with `h k`; a complete triple is returned, otherwise the next attempt runs,
up to the given fuel (`max_attempts`). -/
def stochasticAttempts (pw : List CsvRow) (h : Nat → Nat) :
    Nat → Nat → Option SelResult
  | _, 0 => none
  | k, fuel + 1 =>
    let years := uniqFirst (pw.map (·.year))
    if years.length = 0 then none
    else
      let yd := yearDataOf pw (yearChosen pw (h k))
      if completeTriple yd then
        some ⟨(hibRowD yd 0).weight, (hibRowD yd 1).weight, (hibRowD yd 2).weight,
          .EGZAKT, some (labelOf (hibRowD yd 0))⟩
      else stochasticAttempts pw h (k + 1) fuel

/-- The averaged fallback of `stochastic_weight_selection`: unlike the
vectorized sampler it returns `_AVG` (with uniform weights) even when the
total is not positive, and `HIBA` when the slot index set is incomplete. -/
def stochasticAvg (pw : List CsvRow) (level : MatchLevel) : SelResult :=
  if pw.length > 0 ∧ avgPopulated pw then
    let m0 := hibMean pw 0
    let m1 := hibMean pw 1
    let m2 := hibMean pw 2
    let total := m0 + m1 + m2
    if 0 < total then
      ⟨m0 / total, m1 / total, m2 / total, avgOf level,
        some (labelOf (pw.headD default))⟩
    else
      ⟨1/3, 1/3, 1/3, avgOf level, some (labelOf (pw.headD default))⟩
  else ⟨1/3, 1/3, 1/3, .HIBA, none⟩

/-- `stochastic_weight_selection` for one record: hierarchical lookup, then
up to 10 sampling attempts, then the averaged fallback, then `HIBA`.  The
returned level of a successful attempt is the lookup's level. -/
def stochasticWeightSelection (w : List CsvRow) (r : FutureRecord)
    (h : Nat → Nat) : SelResult :=
  match selectFor w r with
  | none => ⟨1/3, 1/3, 1/3, .EGYENLETES, none⟩
  | some (pw, level) =>
    match stochasticAttempts pw h 0 10 with
    | some res => { res with level := level }
    | none => stochasticAvg pw level



/-! ## Analysis abbreviations (no counterpart in the source; they name
intermediate collections of the pipeline for the statements below) -/

/-- The observation emitted for position `i` of block `blk`. -/
def obsAt (hb : List HourRecord) (blk : BlockRecord) (i : Nat) : WeightObs :=
  mkObs blk ((blockVals hb blk).sum) (blockVals hb blk) i

/-- The blocks of `bb` that carry calendar position `(y, m, d, h)` and emit
observations (positive hourly sum). -/
def calBlocks (hb : List HourRecord) (bb : List BlockRecord) (y m d h : Nat) :
    List BlockRecord :=
  bb.filter (fun blk => blk.time.year = y ∧ blk.time.month = m ∧ blk.time.day = d
    ∧ blk.time.hour = h ∧ 0 < (blockVals hb blk).sum)

/-- The aggregation key of slot `i` at calendar position `(y, m, d, h)`. -/
def calKey (y m d h i : Nat) : AggKey := ⟨y, m, d, h, h + i, i⟩

/-! ## Concrete example data used by witnesses and counterexamples -/

/-- Historical hourly series: three 1 mm hours at absolute hours 100..102. -/
def exHourly : List HourRecord := [⟨100, 1⟩, ⟨101, 1⟩, ⟨102, 1⟩]

/-- One historical 3-hour block (1995-07-15 06:00, total 3 mm) covering them. -/
def exBlocks : List BlockRecord := [⟨⟨100, 1995, 7, 15, 6⟩, 3⟩]

/-- The weight table `weightBuilder exHourly exBlocks` produces: each weight
is `round4 (1/3) = 0.3333`. -/
def exTable : List CsvRow :=
  [⟨1995, 7, 15, 6, 6, 0, 3333/10000⟩,
   ⟨1995, 7, 15, 6, 7, 1, 3333/10000⟩,
   ⟨1995, 7, 15, 6, 8, 2, 3333/10000⟩]

/-- A future record matching the exact key `(7, 15, 6)`, with `pr = 1`. -/
def exFut : FutureRecord := ⟨1, ⟨200000, 2030, 7, 15, 6⟩, 1⟩

/-- Weight table in which the drawn year 1995 is incomplete (one row) while
year 1996 has a complete triple. -/
def tableC7 : List CsvRow :=
  [⟨1995, 7, 15, 6, 6, 0, 1⟩,
   ⟨1996, 7, 15, 6, 6, 0, 1/2⟩,
   ⟨1996, 7, 15, 6, 7, 1, 1/4⟩,
   ⟨1996, 7, 15, 6, 8, 2, 1/4⟩]

/-- Draw stream whose first draw picks index 0 (the incomplete year 1995)
and whose every later draw picks index 1 (the complete year 1996). -/
def drawC7 : Nat → Nat := fun k => if k = 0 then 0 else 1

/-- Weight table whose only candidate year is incomplete: slot 0 only, so the
averaged fallback cannot populate {0,1,2} either. -/
def tableC8 : List CsvRow := [⟨1995, 7, 15, 6, 6, 0, 1⟩]

/-- Weight table with two complete candidate years at the exact key
`(7, 15, 6)` whose triples differ. -/
def tableC2 : List CsvRow :=
  [⟨1995, 7, 15, 6, 6, 0, 1/2⟩,
   ⟨1995, 7, 15, 6, 7, 1, 1/4⟩,
   ⟨1995, 7, 15, 6, 8, 2, 1/4⟩,
   ⟨1996, 7, 15, 6, 6, 0, 1/10⟩,
   ⟨1996, 7, 15, 6, 7, 1, 2/10⟩,
   ⟨1996, 7, 15, 6, 8, 2, 7/10⟩]

/-- A second future record with the same exact key as `exFut`. -/
def futB : FutureRecord := ⟨2, ⟨200003, 2030, 7, 15, 6⟩, 1⟩

/-- Two records processed in one run; both match the key of `tableC2`. -/
def recsC2 : List FutureRecord := [exFut, futB]

/-- A generator family: the stream of the generator seeded 43 always draws
index 0, any other generator draws its call index.  (Any family of draw
streams is a legitimate abstraction of per-seed PCG64 streams.) -/
def drawC2 : Nat → Nat → Nat := fun s k => if s = 43 then 0 else k

/-- Two weight observations sharing `(month, day, hour, hour_in_block)` and
the label hour but coming from different historical years. -/
def obsA : WeightObs := ⟨⟨100, 1995, 7, 15, 6⟩, 1995, 7, 15, 6, 6, 0, 1, 5, 5, 1/5⟩

/-- Companion observation of `obsA` from year 1996 with a different weight. -/
def obsB : WeightObs := ⟨⟨200, 1996, 7, 15, 6⟩, 1996, 7, 15, 6, 6, 0, 3, 5, 5, 3/5⟩

/-- A one-row aggregated table used to exercise `normalize_weights` and
`save_csv` (weight 1/2, weight_mean 1/2). -/
def tableC9 : List AggRow := [⟨1995, 7, 15, 6, 6, 0, 1/2, 1, 1, 2, 1/2⟩]

/-- The value `normalize_weights` returns on `tableC9`: the single group is
renormalized, so its `weight` becomes 1 while `weight_mean` is untouched. -/
def tableC9norm : List AggRow := [⟨1995, 7, 15, 6, 6, 0, 1/2, 1, 1, 2, 1⟩]

/-! ## General helper lemmas -/

theorem mem_uniqFirstAux [DecidableEq α] (l : List α) :
    ∀ (seen : List α) (x : α), x ∈ uniqFirstAux seen l ↔ x ∈ l ∧ x ∉ seen := by
  induction l with
  | nil => intro seen x; simp [uniqFirstAux]
  | cons a as ih =>
    intro seen x
    by_cases ha : a ∈ seen
    · rw [uniqFirstAux, if_pos ha, ih]
      constructor
      · rintro ⟨hx, hns⟩
        exact ⟨List.mem_cons_of_mem _ hx, hns⟩
      · rintro ⟨hx, hns⟩
        rcases List.mem_cons.mp hx with rfl | hx2
        · exact absurd ha hns
        · exact ⟨hx2, hns⟩
    · rw [uniqFirstAux, if_neg ha]
      constructor
      · intro hx
        rcases List.mem_cons.mp hx with rfl | hx2
        · exact ⟨List.mem_cons_self _ _, ha⟩
        · rcases (ih _ _).mp hx2 with ⟨h1, h2⟩
          exact ⟨List.mem_cons_of_mem _ h1, fun hc => h2 (List.mem_cons_of_mem _ hc)⟩
      · rintro ⟨hx, hns⟩
        rcases List.mem_cons.mp hx with rfl | hx2
        · exact List.mem_cons_self _ _
        · by_cases hxa : x = a
          · subst hxa; exact List.mem_cons_self _ _
          · refine List.mem_cons_of_mem _ ((ih _ _).mpr ⟨hx2, fun hc => ?_⟩)
            exact (List.mem_cons.mp hc).elim hxa hns

theorem mem_uniqFirst [DecidableEq α] (l : List α) (x : α) :
    x ∈ uniqFirst l ↔ x ∈ l := by
  simp [uniqFirst, mem_uniqFirstAux]

theorem nodup_uniqFirstAux [DecidableEq α] (l : List α) :
    ∀ seen : List α, (uniqFirstAux seen l).Nodup := by
  induction l with
  | nil => intro seen; simp [uniqFirstAux]
  | cons a as ih =>
    intro seen
    by_cases ha : a ∈ seen
    · rw [uniqFirstAux, if_pos ha]; exact ih seen
    · rw [uniqFirstAux, if_neg ha]
      refine List.nodup_cons.mpr ⟨fun hc => ?_, ih _⟩
      exact ((mem_uniqFirstAux as _ a).mp hc).2 (List.mem_cons_self _ _)

theorem nodup_uniqFirst [DecidableEq α] (l : List α) : (uniqFirst l).Nodup :=
  nodup_uniqFirstAux l []

theorem filter_uniqFirstAux [DecidableEq α] (p : α → Bool) (l : List α) :
    ∀ seen1 seen2 : List α, (∀ y, p y = true → (y ∈ seen1 ↔ y ∈ seen2)) →
      (uniqFirstAux seen1 l).filter p = uniqFirstAux seen2 (l.filter p) := by
  induction l with
  | nil => intro _ _ _; simp [uniqFirstAux]
  | cons a as ih =>
    intro seen1 seen2 hseen
    by_cases hpa : p a = true
    · rw [List.filter_cons_of_pos hpa]
      by_cases ha1 : a ∈ seen1
      · have ha2 : a ∈ seen2 := (hseen a hpa).mp ha1
        rw [uniqFirstAux, if_pos ha1, uniqFirstAux, if_pos ha2]
        exact ih seen1 seen2 hseen
      · have ha2 : a ∉ seen2 := fun hc => ha1 ((hseen a hpa).mpr hc)
        rw [uniqFirstAux, if_neg ha1, uniqFirstAux, if_neg ha2,
          List.filter_cons_of_pos hpa]
        refine congrArg (a :: ·) (ih _ _ fun y hy => ?_)
        simp only [List.mem_cons, hseen y hy]
    · rw [List.filter_cons_of_neg hpa]
      by_cases ha1 : a ∈ seen1
      · rw [uniqFirstAux, if_pos ha1]
        exact ih seen1 seen2 hseen
      · rw [uniqFirstAux, if_neg ha1, List.filter_cons_of_neg hpa]
        refine ih _ _ fun y hy => ?_
        have hya : y ≠ a := fun hc => hpa (hc ▸ hy)
        simp only [List.mem_cons, hya, false_or, hseen y hy]

theorem filter_uniqFirst [DecidableEq α] (p : α → Bool) (l : List α) :
    (uniqFirst l).filter p = uniqFirst (l.filter p) :=
  filter_uniqFirstAux p l [] [] (fun _ _ => Iff.rfl)

theorem uniqFirstAux_eq_nil [DecidableEq α] (l : List α) :
    ∀ seen, (∀ y ∈ l, y ∈ seen) → uniqFirstAux seen l = [] := by
  induction l with
  | nil => intro _ _; rfl
  | cons a as ih =>
    intro seen h
    rw [uniqFirstAux, if_pos (h a (List.mem_cons_self _ _))]
    exact ih seen fun y hy => h y (List.mem_cons_of_mem _ hy)

theorem uniqFirstAux_append_absorb [DecidableEq α] (l2 : List α) : ∀ (l1 seen : List α),
    (∀ y ∈ l2, y ∈ l1 ++ seen) → uniqFirstAux seen (l1 ++ l2) = uniqFirstAux seen l1 := by
  intro l1
  induction l1 with
  | nil =>
    intro seen h
    simp only [List.nil_append] at h ⊢
    rw [uniqFirstAux_eq_nil l2 seen h, uniqFirstAux]
  | cons a as ih =>
    intro seen h
    by_cases ha : a ∈ seen
    · rw [List.cons_append, uniqFirstAux, if_pos ha, uniqFirstAux, if_pos ha]
      refine ih seen fun y hy => ?_
      rcases List.mem_append.mp (h y hy) with hy1 | hy2
      · rcases List.mem_cons.mp hy1 with rfl | hy3
        · exact List.mem_append.mpr (Or.inr ha)
        · exact List.mem_append.mpr (Or.inl hy3)
      · exact List.mem_append.mpr (Or.inr hy2)
    · rw [List.cons_append, uniqFirstAux, if_neg ha, uniqFirstAux, if_neg ha]
      refine congrArg (a :: ·) (ih (a :: seen) fun y hy => ?_)
      rcases List.mem_append.mp (h y hy) with hy1 | hy2
      · rcases List.mem_cons.mp hy1 with rfl | hy3
        · exact List.mem_append.mpr (Or.inr (List.mem_cons_self _ _))
        · exact List.mem_append.mpr (Or.inl hy3)
      · exact List.mem_append.mpr (Or.inr (List.mem_cons_of_mem _ hy2))

theorem uniqFirstAux_eq_self [DecidableEq α] (l : List α) :
    ∀ seen, l.Nodup → (∀ y ∈ l, y ∉ seen) → uniqFirstAux seen l = l := by
  induction l with
  | nil => intro _ _ _; rfl
  | cons a as ih =>
    intro seen hnd hdisj
    rw [uniqFirstAux, if_neg (hdisj a (List.mem_cons_self _ _))]
    refine congrArg (a :: ·) (ih (a :: seen) (List.nodup_cons.mp hnd).2 fun y hy hc => ?_)
    rcases List.mem_cons.mp hc with rfl | hc2
    · exact (List.nodup_cons.mp hnd).1 hy
    · exact hdisj y (List.mem_cons_of_mem _ hy) hc2

theorem uniqFirst_append_absorb [DecidableEq α] (l1 l2 : List α)
    (hnd : l1.Nodup) (hsub : ∀ y ∈ l2, y ∈ l1) : uniqFirst (l1 ++ l2) = l1 := by
  rw [uniqFirst, uniqFirstAux_append_absorb l2 l1 []
    (fun y hy => List.mem_append.mpr (Or.inl (hsub y hy)))]
  exact uniqFirstAux_eq_self l1 [] hnd (fun _ _ h => (List.not_mem_nil _) h)

theorem insertSorted_perm (le : α → α → Bool) (x : α) (l : List α) :
    List.Perm (insertSorted le x l) (x :: l) := by
  induction l with
  | nil => exact List.Perm.refl _
  | cons y ys ih =>
    by_cases h : le x y
    · rw [insertSorted, if_pos h]
    · rw [insertSorted, if_neg h]
      exact (ih.cons y).trans (List.Perm.swap x y ys)

theorem sortStable_perm (le : α → α → Bool) (l : List α) :
    List.Perm (sortStable le l) l := by
  induction l with
  | nil => exact List.Perm.refl _
  | cons x xs ih => exact (insertSorted_perm le x (sortStable le xs)).trans (ih.cons x)

theorem abs_roundHalfEven_sub (x : ℚ) : |(roundHalfEven x : ℚ) - x| ≤ 1/2 := by
  have h1 : ((⌊x⌋ : ℤ) : ℚ) ≤ x := Int.floor_le x
  have h2 : x < (⌊x⌋ : ℚ) + 1 := Int.lt_floor_add_one x
  rw [roundHalfEven]
  by_cases hc1 : x - (⌊x⌋ : ℚ) < 1/2
  · rw [if_pos hc1, abs_le]
    constructor <;> linarith
  · rw [if_neg hc1]
    by_cases hc2 : (1 : ℚ)/2 < x - (⌊x⌋ : ℚ)
    · rw [if_pos hc2, abs_le]
      push_cast
      constructor <;> linarith
    · have heq : x - (⌊x⌋ : ℚ) = 1/2 := le_antisymm (not_lt.mp hc2) (not_lt.mp hc1)
      rw [if_neg hc2]
      by_cases hpar : ⌊x⌋ % 2 = 0
      · rw [if_pos hpar, abs_le]; constructor <;> linarith
      · rw [if_neg hpar, abs_le]; push_cast; constructor <;> linarith

theorem abs_round4_sub (x : ℚ) : |round4 x - x| ≤ 1/20000 := by
  have h := abs_roundHalfEven_sub (x * 10000)
  have hrw : round4 x - x = ((roundHalfEven (x * 10000) : ℚ) - x * 10000) / 10000 := by
    rw [round4]; ring
  rw [hrw, abs_div]
  have h10 : |(10000 : ℚ)| = 10000 := by norm_num
  rw [h10, div_le_div_iff₀ (by norm_num) (by norm_num)]
  linarith

theorem roundHalfEven_intCast (n : ℤ) : roundHalfEven (n : ℚ) = n := by
  rw [roundHalfEven, Int.floor_intCast]
  norm_num

theorem round4_idem (x : ℚ) : round4 (round4 x) = round4 x := by
  rw [round4, round4]
  have : ((roundHalfEven (x * 10000) : ℤ) : ℚ) / 10000 * 10000
      = ((roundHalfEven (x * 10000) : ℤ) : ℚ) := by
    field_simp
  rw [this, roundHalfEven_intCast]


/-! ## Pipeline helper lemmas -/

theorem mapM_except_ok {ε α β : Type} (f : α → Except ε β) (g : α → β) :
    ∀ l : List α, (∀ x ∈ l, f x = Except.ok (g x)) → l.mapM f = Except.ok (l.map g) := by
  intro l
  induction l with
  | nil => intro _; rfl
  | cons a as ih =>
    intro h
    rw [List.mapM_cons, h a (List.mem_cons_self _ _),
      ih (fun x hx => h x (List.mem_cons_of_mem _ hx))]
    rfl

theorem normalizeWeights_ok (t : List AggRow) (ht : t ≠ []) :
    normalizeWeights t = Except.ok ((uniqFirst (t.map rowLabel)).flatMap (normLabel t)) := by
  have hstep : ∀ L ∈ uniqFirst (t.map rowLabel),
      (if (t.filter (fun r => rowLabel r = L)).length > 0 then
        Except.ok (normLabel t L)
      else
        Except.error "UnboundLocalError: day_num referenced before assignment")
      = Except.ok (normLabel t L) := by
    intro L hL
    rcases List.mem_map.mp ((mem_uniqFirst _ _).mp hL) with ⟨r, hr, hrl⟩
    have hmem : r ∈ t.filter (fun r => rowLabel r = L) := by
      simp only [List.mem_filter, decide_eq_true_eq]
      exact ⟨hr, hrl⟩
    exact if_pos (List.length_pos.mpr (List.ne_nil_of_mem hmem))
  have hlabels : uniqFirst (t.map rowLabel) ≠ [] := by
    rcases List.exists_mem_of_ne_nil t ht with ⟨r, hr⟩
    exact List.ne_nil_of_mem ((mem_uniqFirst _ _).mpr (List.mem_map_of_mem rowLabel hr))
  rw [normalizeWeights]
  rw [mapM_except_ok _ (normLabel t) _ hstep]
  have hne : ((uniqFirst (t.map rowLabel)).map (normLabel t)).isEmpty = false := by
    rcases List.exists_mem_of_ne_nil _ hlabels with ⟨L, hL⟩
    exact List.isEmpty_eq_false_iff_exists_mem.mpr ⟨normLabel t L, List.mem_map_of_mem _ hL⟩
  show (if ((uniqFirst (t.map rowLabel)).map (normLabel t)).isEmpty then _ else _) = _
  rw [hne]
  simp only [Bool.false_eq_true, if_false, List.flatMap_def]

theorem flatMap_map_fn (f : α → β) (g : β → List γ) (l : List α) :
    (l.map f).flatMap g = l.flatMap (fun a => g (f a)) := by
  induction l with
  | nil => rfl
  | cons a as ih => simp only [List.map_cons, List.flatMap_cons, ih]

theorem ultraFast_length (w : List CsvRow) (g : Nat → Nat) :
    ∀ (rs : List FutureRecord) (k : Nat),
      (ultraFastWeightSelection w g rs k).length = rs.length := by
  intro rs
  induction rs with
  | nil => intro k; rfl
  | cons r rs ih =>
    intro k
    rw [ultraFastWeightSelection]
    cases hsel : selectFor w r with
    | none => simp only [List.length_cons, ih]
    | some pl => simp only [List.length_cons, ih]

theorem nBatches_succ (n bs : Nat) (hbs : 0 < bs) (hn : 0 < n) :
    (n + bs - 1) / bs = ((n - bs) + bs - 1) / bs + 1 := by
  rcases le_or_lt n bs with h | h
  · have h1 : n - bs = 0 := Nat.sub_eq_zero_of_le h
    rw [h1]
    have h2 : (0 + bs - 1) / bs = 0 := Nat.div_eq_of_lt (by omega)
    rw [h2]
    have h3 : n + bs - 1 = (n - 1) + bs := by omega
    rw [h3, Nat.add_div_right _ hbs]
    have h4 : (n - 1) / bs = 0 := Nat.div_eq_of_lt (by omega)
    omega
  · have h3 : n + bs - 1 = (n - 1) + bs := by omega
    rw [h3, Nat.add_div_right _ hbs]
    have h4 : (n - bs) + bs - 1 = n - 1 := by omega
    rw [h4]

theorem batchedSels_step (w : List CsvRow) (g : Nat → Nat → Nat) (seed bs : Nat)
    (recs : List FutureRecord) (hbs : 0 < bs) (hne : recs ≠ []) :
    batchedSels w g seed bs recs
      = ultraFastWeightSelection w (g seed) (recs.take bs) 0
          ++ batchedSels w g (seed + bs) bs (recs.drop bs) := by
  have hn : 0 < recs.length := List.length_pos.mpr hne
  have hlen : (recs.drop bs).length = recs.length - bs := List.length_drop bs recs
  rw [batchedSels, batchedSels, hlen, nBatches_succ recs.length bs hbs hn,
    List.range_succ_eq_map, List.flatMap_cons, flatMap_map_fn]
  simp only [Nat.zero_mul, Nat.add_zero, List.drop_zero]
  refine congrArg (_ ++ ·) (List.flatMap_congr ?_)
  intro bi _
  have h1 : Nat.succ bi * bs = bs + bi * bs := by
    rw [Nat.succ_mul]; omega
  simp only [List.drop_drop, h1]
  have h3 : seed + (bs + bi * bs) = seed + bs + bi * bs := by omega
  rw [h3]

theorem disagg_step (w : List CsvRow) (g : Nat → Nat → Nat) (seed bs : Nat)
    (recs : List FutureRecord) (hbs : 0 < bs) (hne : recs ≠ []) :
    disaggregatePrecipitation w g seed bs recs
      = ((recs.take bs).zip (ultraFastWeightSelection w (g seed) (recs.take bs) 0)).flatMap
          (fun p => recordRows p.1 p.2)
          ++ disaggregatePrecipitation w g (seed + bs) bs (recs.drop bs) := by
  have hn : 0 < recs.length := List.length_pos.mpr hne
  have hlen : (recs.drop bs).length = recs.length - bs := List.length_drop bs recs
  rw [disaggregatePrecipitation, disaggregatePrecipitation, hlen,
    nBatches_succ recs.length bs hbs hn, List.range_succ_eq_map, List.flatMap_cons,
    flatMap_map_fn]
  simp only [Nat.zero_mul, Nat.add_zero, List.drop_zero]
  refine congrArg (_ ++ ·) (List.flatMap_congr ?_)
  intro bi _
  have h1 : Nat.succ bi * bs = bs + bi * bs := by
    rw [Nat.succ_mul]; omega
  simp only [List.drop_drop, h1]
  have h3 : seed + (bs + bi * bs) = seed + bs + bi * bs := by omega
  rw [h3]

theorem batchedSels_length (w : List CsvRow) (g : Nat → Nat → Nat) (bs : Nat)
    (hbs : 0 < bs) : ∀ (recs : List FutureRecord) (seed : Nat),
    (batchedSels w g seed bs recs).length = recs.length := by
  suffices H : ∀ (n : Nat) (recs : List FutureRecord), recs.length ≤ n → ∀ seed,
      (batchedSels w g seed bs recs).length = recs.length from
    fun recs seed => H recs.length recs le_rfl seed
  intro n
  induction n with
  | zero =>
    intro recs hl seed
    have hnil : recs = [] := List.eq_nil_of_length_eq_zero (Nat.le_zero.mp hl)
    subst hnil
    have h0 : (bs - 1) / bs = 0 := Nat.div_eq_of_lt (by omega)
    simp [batchedSels, h0]
  | succ n ihn =>
    intro recs hl seed
    cases hrecs : recs with
    | nil =>
      have h0 : (bs - 1) / bs = 0 := Nat.div_eq_of_lt (by omega)
      simp [batchedSels, h0]
    | cons r rs =>
      have hne : recs ≠ [] := by rw [hrecs]; exact List.cons_ne_nil r rs
      rw [← hrecs, batchedSels_step w g seed bs recs hbs hne, List.length_append,
        ultraFast_length, List.length_take]
      have hlen : recs.length = rs.length + 1 := by rw [hrecs]; rfl
      rw [ihn (recs.drop bs) (by rw [List.length_drop]; omega) (seed + bs),
        List.length_drop]
      omega

theorem disagg_eq_zip (w : List CsvRow) (g : Nat → Nat → Nat) (bs : Nat)
    (hbs : 0 < bs) : ∀ (recs : List FutureRecord) (seed : Nat),
    disaggregatePrecipitation w g seed bs recs
      = (recs.zip (batchedSels w g seed bs recs)).flatMap (fun p => recordRows p.1 p.2) := by
  suffices H : ∀ (n : Nat) (recs : List FutureRecord), recs.length ≤ n → ∀ seed,
      disaggregatePrecipitation w g seed bs recs
        = (recs.zip (batchedSels w g seed bs recs)).flatMap
            (fun p => recordRows p.1 p.2) from
    fun recs seed => H recs.length recs le_rfl seed
  intro n
  induction n with
  | zero =>
    intro recs hl seed
    have hnil : recs = [] := List.eq_nil_of_length_eq_zero (Nat.le_zero.mp hl)
    subst hnil
    have h0 : (bs - 1) / bs = 0 := Nat.div_eq_of_lt (by omega)
    simp [disaggregatePrecipitation, batchedSels, h0]
  | succ n ihn =>
    intro recs hl seed
    cases hrecs : recs with
    | nil =>
      have h0 : (bs - 1) / bs = 0 := Nat.div_eq_of_lt (by omega)
      simp [disaggregatePrecipitation, batchedSels, h0]
    | cons r rs =>
      have hne : recs ≠ [] := by rw [hrecs]; exact List.cons_ne_nil r rs
      have hlen : recs.length = rs.length + 1 := by rw [hrecs]; rfl
      rw [← hrecs, disagg_step w g seed bs recs hbs hne,
        batchedSels_step w g seed bs recs hbs hne,
        ihn (recs.drop bs) (by rw [List.length_drop]; omega) (seed + bs)]
      have hsplit : recs.zip
          (ultraFastWeightSelection w (g seed) (recs.take bs) 0
            ++ batchedSels w g (seed + bs) bs (recs.drop bs))
          = (recs.take bs).zip (ultraFastWeightSelection w (g seed) (recs.take bs) 0)
            ++ (recs.drop bs).zip (batchedSels w g (seed + bs) bs (recs.drop bs)) := by
        have h := @List.zip_append _ _ (recs.take bs) (recs.drop bs)
          (ultraFastWeightSelection w (g seed) (recs.take bs) 0)
          (batchedSels w g (seed + bs) bs (recs.drop bs))
          (ultraFast_length w (g seed) (recs.take bs) 0).symm
        rw [List.take_append_drop] at h
        exact h
      rw [hsplit, List.flatMap_append]

theorem recordRows_length (r : FutureRecord) (s : SelResult) :
    (recordRows r s).length = 3 := rfl

theorem flatMap_recordRows_getD (ps : List (FutureRecord × SelResult)) :
    ∀ (i j : Nat), j < 3 → i < ps.length →
      (ps.flatMap (fun p => recordRows p.1 p.2)).getD (3 * i + j) default
        = (recordRows (ps.getD i default).1 (ps.getD i default).2).getD j default := by
  induction ps with
  | nil =>
    intro i j _ hi
    simp at hi
  | cons p ps ih =>
    intro i j hj hi
    cases i with
    | zero =>
      rw [List.flatMap_cons]
      have hj0 : 3 * 0 + j = j := by omega
      rw [hj0]
      have hlt : j < (recordRows p.1 p.2).length := by
        rw [recordRows_length]; omega
      rw [List.getD_append _ _ _ _ hlt]
      rfl
    | succ i' =>
      rw [List.flatMap_cons]
      have hge : (recordRows p.1 p.2).length ≤ 3 * (i' + 1) + j := by
        rw [recordRows_length]; omega
      rw [List.getD_append_right _ _ _ _ hge, recordRows_length]
      have harith : 3 * (i' + 1) + j - 3 = 3 * i' + j := by omega
      rw [harith, ih i' j hj (by simpa using hi)]
      rfl

theorem disagg_length (w : List CsvRow) (g : Nat → Nat → Nat) (seed bs : Nat)
    (recs : List FutureRecord) (hbs : 0 < bs) :
    (disaggregatePrecipitation w g seed bs recs).length = 3 * recs.length := by
  rw [disagg_eq_zip w g bs hbs recs seed]
  have hzlen : (recs.zip (batchedSels w g seed bs recs)).length = recs.length := by
    rw [List.length_zip, batchedSels_length w g bs hbs recs seed, Nat.min_self]
  rw [← hzlen]
  generalize recs.zip (batchedSels w g seed bs recs) = ps
  induction ps with
  | nil => rfl
  | cons p ps ih =>
    rw [List.flatMap_cons, List.length_append, recordRows_length, ih, List.length_cons]
    omega

theorem disagg_getD (w : List CsvRow) (g : Nat → Nat → Nat) (seed bs : Nat)
    (recs : List FutureRecord) (hbs : 0 < bs) (i j : Nat)
    (hi : i < recs.length) (hj : j < 3) :
    (disaggregatePrecipitation w g seed bs recs).getD (3 * i + j) default
      = (recordRows (recs.getD i default)
          ((batchedSels w g seed bs recs).getD i default)).getD j default := by
  rw [disagg_eq_zip w g bs hbs recs seed]
  have hslen : (batchedSels w g seed bs recs).length = recs.length :=
    batchedSels_length w g bs hbs recs seed
  have hzlen : (recs.zip (batchedSels w g seed bs recs)).length = recs.length := by
    rw [List.length_zip, hslen, Nat.min_self]
  rw [flatMap_recordRows_getD _ i j hj (by rw [hzlen]; exact hi)]
  have hz : (recs.zip (batchedSels w g seed bs recs)).getD i default
      = (recs.getD i default, (batchedSels w g seed bs recs).getD i default) := by
    rw [List.getD_eq_getElem _ _ (by rw [hzlen]; exact hi),
      List.getD_eq_getElem _ _ hi, List.getD_eq_getElem _ _ (by rw [hslen]; exact hi)]
    exact List.getElem_zip
  rw [hz]

theorem filter_flatMap (p : β → Bool) (f : α → List β) (l : List α) :
    (l.flatMap f).filter p = l.flatMap (fun a => (f a).filter p) := by
  induction l with
  | nil => rfl
  | cons a as ih => simp only [List.flatMap_cons, List.filter_append, ih]

theorem flatMap_if_filter (P : α → Prop) [DecidablePred P] (F : α → List β)
    (l : List α) :
    l.flatMap (fun a => if P a then F a else [])
      = (l.filter (fun a => P a)).flatMap F := by
  induction l with
  | nil => rfl
  | cons a as ih =>
    by_cases hp : P a
    · have hfc : List.filter (fun x => decide (P x)) (a :: as)
          = a :: List.filter (fun x => decide (P x)) as :=
        List.filter_cons_of_pos (by simpa using hp)
      rw [List.flatMap_cons, if_pos hp, hfc, List.flatMap_cons, ih]
    · have hfc : List.filter (fun x => decide (P x)) (a :: as)
          = List.filter (fun x => decide (P x)) as :=
        List.filter_cons_of_neg (by simpa using hp)
      rw [List.flatMap_cons, if_neg hp, hfc, ih, List.nil_append]

theorem flatMap_singleton_map (f : α → β) (l : List α) :
    l.flatMap (fun a => [f a]) = l.map f := by
  induction l with
  | nil => rfl
  | cons a as ih => simp only [List.flatMap_cons, List.map_cons, ih, List.singleton_append]

theorem sum_map_const_one (l : List α) : (l.map (fun _ => (1 : ℚ))).sum = l.length := by
  induction l with
  | nil => rfl
  | cons a as ih =>
    rw [List.map_cons, List.sum_cons, ih, List.length_cons]
    push_cast
    ring

theorem flatMap_perm_congr (f g : α → List β) (l : List α)
    (h : ∀ a ∈ l, List.Perm (f a) (g a)) :
    List.Perm (l.flatMap f) (l.flatMap g) := by
  induction l with
  | nil => exact List.Perm.refl _
  | cons a as ih =>
    rw [List.flatMap_cons, List.flatMap_cons]
    exact (h a (List.mem_cons_self _ _)).append
      (ih fun x hx => h x (List.mem_cons_of_mem _ hx))

theorem perm_partition [DecidableEq κ] (f : α → κ) :
    ∀ (keys : List κ) (t : List α), keys.Nodup → (∀ x ∈ t, f x ∈ keys) →
      List.Perm (keys.flatMap (fun k => t.filter (fun x => f x = k))) t := by
  intro keys
  induction keys with
  | nil =>
    intro t _ hmem
    cases t with
    | nil => exact List.Perm.refl _
    | cons x xs => exact absurd (hmem x (List.mem_cons_self _ _)) (List.not_mem_nil _)
  | cons k ks ih =>
    intro t hnd hmem
    rw [List.flatMap_cons]
    have hkks : k ∉ ks := (List.nodup_cons.mp hnd).1
    have hstep : ∀ k2 ∈ ks, t.filter (fun x => f x = k2)
        = (t.filter (fun x => !(decide (f x = k)))).filter (fun x => f x = k2) := by
      intro k2 hk2
      rw [List.filter_filter]
      refine (List.filter_congr ?_).symm
      intro x _
      by_cases hx : f x = k2
      · have hk2k : ¬ k2 = k := fun hc => hkks (hc ▸ hk2)
        have hxk : ¬ f x = k := fun hc => hk2k (hx.symm.trans hc)
        simp [hx, hxk, hk2k]
      · simp [hx]
    have hflat : ks.flatMap (fun k2 => t.filter (fun x => f x = k2))
        = ks.flatMap (fun k2 =>
            (t.filter (fun x => !(decide (f x = k)))).filter (fun x => f x = k2)) :=
      List.flatMap_congr hstep
    rw [hflat]
    have hperm2 : List.Perm
        (ks.flatMap (fun k2 =>
          (t.filter (fun x => !(decide (f x = k)))).filter (fun x => f x = k2)))
        (t.filter (fun x => !(decide (f x = k)))) := by
      refine ih (t.filter (fun x => !(decide (f x = k)))) (List.nodup_cons.mp hnd).2 ?_
      intro x hx
      rcases List.mem_filter.mp hx with ⟨hxt, hxk⟩
      rcases List.mem_cons.mp (hmem x hxt) with hc | hc
      · exact absurd (decide_eq_true hc) (by simpa using hxk)
      · exact hc
    refine ((List.Perm.append_left _ hperm2).trans ?_)
    exact List.filter_append_perm _ t

/-- The projection to a saved CSV row ignores the mutable `weight` column, so
renormalization inside `normalize_weights` does not change it. -/
theorem csvOfAgg_renorm (blockData : List AggRow) :
    (renormGroup blockData).map csvOfAgg = blockData.map csvOfAgg := by
  rw [renormGroup]
  by_cases hp : 0 < (blockData.map (·.weight)).sum
  · rw [if_pos hp, List.map_map]
    exact List.map_congr_left fun r _ => rfl
  · rw [if_neg hp]

theorem normLabel_map_csv (t : List AggRow) (L : Label) :
    (normLabel t L).map csvOfAgg
      = [0, 1, 2].flatMap (fun i =>
          ((t.filter (fun r => rowLabel r = L)).filter
            (fun r => r.hourInBlock = i)).map csvOfAgg) := by
  rw [normLabel, List.map_flatMap]
  refine List.flatMap_congr ?_
  intro i _
  by_cases hne : ((t.filter (fun r => rowLabel r = L)).filter
      (fun r => r.hourInBlock = i)).length > 0
  · rw [if_pos hne, csvOfAgg_renorm]
  · rw [if_neg hne]
    have : (t.filter (fun r => rowLabel r = L)).filter (fun r => r.hourInBlock = i) = [] := by
      rcases List.eq_nil_or_concat ((t.filter (fun r => rowLabel r = L)).filter
        (fun r => r.hourInBlock = i)) with hnil | ⟨l2, b, hcat⟩
      · exact hnil
      · exact absurd (by rw [hcat]; simp) hne
    rw [this]

/-- The rows collected by `normalize_weights`, projected to saved CSV rows,
are a permutation of the input table's projection (every row's slot index
must lie in {0,1,2}, which holds for every aggregated table of this
pipeline). -/
theorem norm_map_csv_perm (t : List AggRow) (h3 : ∀ r ∈ t, r.hourInBlock < 3) :
    List.Perm (((uniqFirst (t.map rowLabel)).flatMap (normLabel t)).map csvOfAgg)
      (t.map csvOfAgg) := by
  rw [List.map_flatMap]
  have hstep : ∀ L ∈ uniqFirst (t.map rowLabel),
      List.Perm ((normLabel t L).map csvOfAgg)
        ((t.filter (fun r => rowLabel r = L)).map csvOfAgg) := by
    intro L _
    rw [normLabel_map_csv]
    have hinner : List.Perm
        ([0, 1, 2].flatMap (fun i =>
          (t.filter (fun r => rowLabel r = L)).filter (fun r => r.hourInBlock = i)))
        (t.filter (fun r => rowLabel r = L)) := by
      refine perm_partition (fun r => r.hourInBlock) [0, 1, 2]
        (t.filter (fun r => rowLabel r = L)) (by decide) ?_
      intro r hr
      have h3r : r.hourInBlock < 3 := h3 r (List.mem_filter.mp hr).1
      show r.hourInBlock ∈ [0, 1, 2]
      simp only [List.mem_cons, List.not_mem_nil, or_false]
      omega
    have := hinner.map csvOfAgg
    rw [List.map_flatMap] at this
    exact this
  refine (flatMap_perm_congr _ _ _ hstep).trans ?_
  have houter : List.Perm
      ((uniqFirst (t.map rowLabel)).flatMap (fun L =>
        t.filter (fun r => rowLabel r = L))) t := by
    refine perm_partition rowLabel (uniqFirst (t.map rowLabel)) t
      (nodup_uniqFirst _) ?_
    intro r hr
    exact (mem_uniqFirst _ _).mpr (List.mem_map_of_mem rowLabel hr)
  have hmapped := houter.map csvOfAgg
  rw [List.map_flatMap] at hmapped
  exact hmapped

theorem matchObs_hib (hb : List HourRecord) (bb : List BlockRecord) :
    ∀ o ∈ matchHourlyTo3Hourly hb bb, o.hourInBlock < 3 := by
  intro o ho
  rcases List.mem_flatMap.mp ho with ⟨blk, _, hob⟩
  simp only [blockObs] at hob
  by_cases hs : 0 < (blockVals hb blk).sum
  · rw [if_pos hs] at hob
    rcases List.mem_cons.mp hob with rfl | hob2
    · exact Nat.zero_lt_succ 2
    rcases List.mem_cons.mp hob2 with rfl | hob3
    · show (1 : Nat) < 3
      omega
    rcases List.mem_cons.mp hob3 with rfl | hob4
    · show (2 : Nat) < 3
      omega
    · exact absurd hob4 (List.not_mem_nil o)
  · rw [if_neg hs] at hob
    exact absurd hob (List.not_mem_nil o)

theorem agg_hib (os : List WeightObs) (hos : ∀ o ∈ os, o.hourInBlock < 3) :
    ∀ r ∈ aggregateWeights os, r.hourInBlock < 3 := by
  intro r hr
  rcases List.mem_map.mp hr with ⟨k, hk, rfl⟩
  rcases List.mem_map.mp ((mem_uniqFirst _ _).mp hk) with ⟨o, ho, hok⟩
  have : (mkAggRow os k).hourInBlock = k.hourInBlock := rfl
  rw [this, ← hok]
  exact hos o ho

theorem blockObs_filter_cal (hb : List HourRecord) (blk : BlockRecord) (y m d h : Nat) :
    (blockObs hb blk).filter
        (fun o => o.year = y ∧ o.month = m ∧ o.day = d ∧ o.hour = h)
      = if blk.time.year = y ∧ blk.time.month = m ∧ blk.time.day = d
            ∧ blk.time.hour = h ∧ 0 < (blockVals hb blk).sum
        then [obsAt hb blk 0, obsAt hb blk 1, obsAt hb blk 2]
        else [] := by
  simp only [blockObs, obsAt]
  by_cases hs : 0 < (blockVals hb blk).sum
  · rw [if_pos hs]
    by_cases hcal : blk.time.year = y ∧ blk.time.month = m ∧ blk.time.day = d
        ∧ blk.time.hour = h
    · obtain ⟨h1, h2, h3c, h4⟩ := hcal
      rw [if_pos ⟨h1, h2, h3c, h4, hs⟩]
      simp [List.filter, mkObs, h1, h2, h3c, h4]
    · rw [if_neg (fun hc => hcal ⟨hc.1, hc.2.1, hc.2.2.1, hc.2.2.2.1⟩)]
      have hfail : ∀ i, ¬((mkObs blk ((blockVals hb blk).sum) (blockVals hb blk) i).year = y
          ∧ (mkObs blk ((blockVals hb blk).sum) (blockVals hb blk) i).month = m
          ∧ (mkObs blk ((blockVals hb blk).sum) (blockVals hb blk) i).day = d
          ∧ (mkObs blk ((blockVals hb blk).sum) (blockVals hb blk) i).hour = h) := by
        intro i hc
        exact hcal ⟨hc.1, hc.2.1, hc.2.2.1, hc.2.2.2⟩
      simp only [List.filter]
      rw [decide_eq_false (hfail 0), decide_eq_false (hfail 1), decide_eq_false (hfail 2)]
  · rw [if_neg hs, if_neg (fun hc => absurd hc.2.2.2.2 hs)]
    rfl

theorem blockObs_filter_key (hb : List HourRecord) (blk : BlockRecord)
    (y m d h i : Nat) (hi : i < 3) :
    (blockObs hb blk).filter (fun o => aggKey o = calKey y m d h i)
      = if blk.time.year = y ∧ blk.time.month = m ∧ blk.time.day = d
            ∧ blk.time.hour = h ∧ 0 < (blockVals hb blk).sum
        then [obsAt hb blk i]
        else [] := by
  simp only [blockObs, obsAt, calKey]
  by_cases hs : 0 < (blockVals hb blk).sum
  · rw [if_pos hs]
    by_cases hcal : blk.time.year = y ∧ blk.time.month = m ∧ blk.time.day = d
        ∧ blk.time.hour = h
    · obtain ⟨h1, h2, h3c, h4⟩ := hcal
      rw [if_pos ⟨h1, h2, h3c, h4, hs⟩]
      interval_cases i <;>
        simp [List.filter, aggKey, mkObs, AggKey.mk.injEq, h1, h2, h3c, h4]
    · rw [if_neg (fun hc => hcal ⟨hc.1, hc.2.1, hc.2.2.1, hc.2.2.2.1⟩)]
      have hfail : ∀ j, ¬(aggKey (mkObs blk ((blockVals hb blk).sum)
          (blockVals hb blk) j) = AggKey.mk y m d h (h + i) i) := by
        intro j hc
        rw [aggKey] at hc
        injection hc with e1 e2 e3 e4 e5 e6
        exact hcal ⟨e1, e2, e3, e4⟩
      simp only [List.filter]
      rw [decide_eq_false (hfail 0), decide_eq_false (hfail 1), decide_eq_false (hfail 2)]
  · rw [if_neg hs, if_neg (fun hc => absurd hc.2.2.2.2 hs)]
    rfl

theorem os_filter_cal (hb : List HourRecord) (bb : List BlockRecord) (y m d h : Nat) :
    (matchHourlyTo3Hourly hb bb).filter
        (fun o => o.year = y ∧ o.month = m ∧ o.day = d ∧ o.hour = h)
      = (calBlocks hb bb y m d h).flatMap
          (fun blk => [obsAt hb blk 0, obsAt hb blk 1, obsAt hb blk 2]) := by
  rw [matchHourlyTo3Hourly, filter_flatMap, calBlocks, ← flatMap_if_filter]
  exact List.flatMap_congr (fun blk _ => blockObs_filter_cal hb blk y m d h)

theorem os_filter_key (hb : List HourRecord) (bb : List BlockRecord)
    (y m d h i : Nat) (hi : i < 3) :
    (matchHourlyTo3Hourly hb bb).filter (fun o => aggKey o = calKey y m d h i)
      = (calBlocks hb bb y m d h).map (fun blk => obsAt hb blk i) := by
  rw [matchHourlyTo3Hourly, filter_flatMap, calBlocks, ← flatMap_singleton_map,
    ← flatMap_if_filter]
  exact List.flatMap_congr (fun blk _ => blockObs_filter_key hb blk y m d h i hi)

theorem aggKey_obsAt (hb : List HourRecord) (blk : BlockRecord) (i y m d h : Nat)
    (h1 : blk.time.year = y) (h2 : blk.time.month = m)
    (h3 : blk.time.day = d) (h4 : blk.time.hour = h) :
    aggKey (obsAt hb blk i) = calKey y m d h i := by
  simp only [obsAt, mkObs, aggKey, calKey]
  rw [h1, h2, h3, h4]

theorem keys_filter_eq (hb : List HourRecord) (bb : List BlockRecord) (y m d h : Nat) :
    (uniqFirst ((matchHourlyTo3Hourly hb bb).map aggKey)).filter
        (fun k => k.year = y ∧ k.month = m ∧ k.day = d ∧ k.hour = h)
      = uniqFirst ((calBlocks hb bb y m d h).flatMap
          (fun _ => [calKey y m d h 0, calKey y m d h 1, calKey y m d h 2])) := by
  rw [filter_uniqFirst]
  congr 1
  rw [List.map_filter]
  have hpe : (matchHourlyTo3Hourly hb bb).filter
      ((fun k => decide (k.year = y ∧ k.month = m ∧ k.day = d ∧ k.hour = h)) ∘ aggKey)
      = (matchHourlyTo3Hourly hb bb).filter
          (fun o => o.year = y ∧ o.month = m ∧ o.day = d ∧ o.hour = h) :=
    List.filter_congr (fun o _ => rfl)
  rw [hpe, os_filter_cal, List.map_flatMap]
  refine List.flatMap_congr ?_
  intro blk hblk
  have hcond := of_decide_eq_true (List.mem_filter.mp hblk).2
  obtain ⟨h1, h2, h3c, h4, _⟩ := hcond
  simp only [List.map_cons, List.map_nil]
  rw [aggKey_obsAt hb blk 0 y m d h h1 h2 h3c h4,
    aggKey_obsAt hb blk 1 y m d h h1 h2 h3c h4,
    aggKey_obsAt hb blk 2 y m d h h1 h2 h3c h4]

theorem calKey_nodup (y m d h : Nat) :
    ([calKey y m d h 0, calKey y m d h 1, calKey y m d h 2] : List AggKey).Nodup := by
  simp [calKey, AggKey.mk.injEq]

theorem uniqFirst_const_triple {γ : Type} (B : List γ) (k0 k1 k2 : AggKey)
    (hnd : ([k0, k1, k2] : List AggKey).Nodup) (hBne : B ≠ []) :
    uniqFirst (B.flatMap (fun _ => [k0, k1, k2])) = [k0, k1, k2] := by
  cases B with
  | nil => exact absurd rfl hBne
  | cons blk B2 =>
    rw [List.flatMap_cons]
    refine uniqFirst_append_absorb [k0, k1, k2] _ hnd ?_
    intro x hx
    rcases List.mem_flatMap.mp hx with ⟨_, _, hxk⟩
    exact hxk

theorem obsAt_weight_triple (hb : List HourRecord) (blk : BlockRecord)
    (hs : 0 < (blockVals hb blk).sum) :
    (obsAt hb blk 0).weight + (obsAt hb blk 1).weight + (obsAt hb blk 2).weight = 1 := by
  have hne : (blockVals hb blk).sum ≠ 0 := ne_of_gt hs
  show (blockVals hb blk).getD 0 0 / (blockVals hb blk).sum
      + (blockVals hb blk).getD 1 0 / (blockVals hb blk).sum
      + (blockVals hb blk).getD 2 0 / (blockVals hb blk).sum = 1
  rw [div_add_div_same, div_add_div_same]
  have hval : (blockVals hb blk).getD 0 0 + (blockVals hb blk).getD 1 0
      + (blockVals hb blk).getD 2 0 = (blockVals hb blk).sum := by
    have g0 : (blockVals hb blk).getD 0 0 = lookupHourly hb blk.time.abs := rfl
    have g1 : (blockVals hb blk).getD 1 0 = lookupHourly hb (blk.time.abs + 1) := rfl
    have g2 : (blockVals hb blk).getD 2 0 = lookupHourly hb (blk.time.abs + 2) := rfl
    have gs : (blockVals hb blk).sum = lookupHourly hb blk.time.abs
        + (lookupHourly hb (blk.time.abs + 1) + (lookupHourly hb (blk.time.abs + 2) + 0)) :=
      rfl
    rw [g0, g1, g2, gs]
    ring
  rw [hval, div_self hne]

/-! ## Claim theorems (with their witnesses and counterexamples) -/

theorem recordRows_getD_fields (r : FutureRecord) (s : SelResult) (j : Nat)
    (hj : j < 3) :
    (recordRows r s).getD j default
      = ⟨r.cellId, r.time, r.time.abs + j, r.pr, j, selWeight s j, s.level, s.ref,
          r.pr * selWeight s j⟩ := by
  interval_cases j <;> rfl

/-- C3: with a positive batch size, the disaggregation driver emits exactly 3
hourly rows per processed record — record `i` owns output rows `3i .. 3i+2` —
and row `3i + j` carries the record's cell, its block timestamp, the hourly
timestamp offset `j` hours from the block start, `hour_in_3h_block = j`, the
original 3-hour total, and
`pr_hourly_disaggregated = precipitation_total * weight_used`. -/
theorem claim_C3_three_rows_per_record (w : List CsvRow) (g : Nat → Nat → Nat)
    (seed bs : Nat) (recs : List FutureRecord) (hbs : 0 < bs) :
    (disaggregatePrecipitation w g seed bs recs).length = 3 * recs.length ∧
    ∀ i, i < recs.length → ∀ j, j < 3 →
      ((disaggregatePrecipitation w g seed bs recs).getD (3 * i + j) default).cellId
          = (recs.getD i default).cellId ∧
      ((disaggregatePrecipitation w g seed bs recs).getD (3 * i + j) default).time3h
          = (recs.getD i default).time ∧
      ((disaggregatePrecipitation w g seed bs recs).getD (3 * i + j) default).time1h
          = (recs.getD i default).time.abs + j ∧
      ((disaggregatePrecipitation w g seed bs recs).getD (3 * i + j) default).hourInBlock
          = j ∧
      ((disaggregatePrecipitation w g seed bs recs).getD (3 * i + j) default).pr3h
          = (recs.getD i default).pr ∧
      ((disaggregatePrecipitation w g seed bs recs).getD (3 * i + j) default).pr1h
          = (recs.getD i default).pr
            * ((disaggregatePrecipitation w g seed bs recs).getD (3 * i + j)
                default).weightUsed := by
  refine ⟨disagg_length w g seed bs recs hbs, ?_⟩
  intro i hi j hj
  rw [disagg_getD w g seed bs recs hbs i j hi hj,
    recordRows_getD_fields _ _ j hj]
  exact ⟨rfl, rfl, rfl, rfl, rfl, rfl⟩

/-- C3 witness: one record through the concrete table `exTable` with the
source's batch size 10000. -/
theorem claim_C3_witness :
    0 < 10000 ∧
    (disaggregatePrecipitation exTable (fun _ _ => 0) 42 10000 [exFut]).length
        = 3 * [exFut].length ∧
    ((disaggregatePrecipitation exTable (fun _ _ => 0) 42 10000 [exFut]).getD
        (3 * 0 + 1) default).hourInBlock = 1 ∧
    ((disaggregatePrecipitation exTable (fun _ _ => 0) 42 10000 [exFut]).getD
        (3 * 0 + 1) default).time1h = ([exFut].getD 0 default).time.abs + 1 ∧
    ((disaggregatePrecipitation exTable (fun _ _ => 0) 42 10000 [exFut]).getD
        (3 * 0 + 1) default).pr1h
      = ([exFut].getD 0 default).pr
        * ((disaggregatePrecipitation exTable (fun _ _ => 0) 42 10000 [exFut]).getD
            (3 * 0 + 1) default).weightUsed :=
  ⟨by decide,
   (claim_C3_three_rows_per_record exTable (fun _ _ => 0) 42 10000 [exFut] (by decide)).1,
   ((claim_C3_three_rows_per_record exTable (fun _ _ => 0) 42 10000 [exFut]
      (by decide)).2 0 (by decide) 1 (by decide)).2.2.2.1,
   ((claim_C3_three_rows_per_record exTable (fun _ _ => 0) 42 10000 [exFut]
      (by decide)).2 0 (by decide) 1 (by decide)).2.2.1,
   ((claim_C3_three_rows_per_record exTable (fun _ _ => 0) 42 10000 [exFut]
      (by decide)).2 0 (by decide) 1 (by decide)).2.2.2.2.2⟩

/-- C1 amended: for every processed record, the sum of its 3 hourly outputs
equals `precipitation_total` times the sum of the weight triple used; it
equals `precipitation_total` itself exactly when that triple sums to 1 (as
the UNIFORM and normalized averaged triples do).  The unconditional 1e-6
tolerance of the claim fails because stored weight triples are rounded to 4
decimals — see the counterexample. -/
theorem claim_C1_amended (w : List CsvRow) (g : Nat → Nat → Nat) (seed bs : Nat)
    (recs : List FutureRecord) (hbs : 0 < bs) :
    ∀ i, i < recs.length →
      ((disaggregatePrecipitation w g seed bs recs).getD (3 * i) default).pr1h
        + ((disaggregatePrecipitation w g seed bs recs).getD (3 * i + 1) default).pr1h
        + ((disaggregatePrecipitation w g seed bs recs).getD (3 * i + 2) default).pr1h
      = (recs.getD i default).pr
        * (((disaggregatePrecipitation w g seed bs recs).getD (3 * i) default).weightUsed
          + ((disaggregatePrecipitation w g seed bs recs).getD (3 * i + 1)
              default).weightUsed
          + ((disaggregatePrecipitation w g seed bs recs).getD (3 * i + 2)
              default).weightUsed) ∧
      ((((disaggregatePrecipitation w g seed bs recs).getD (3 * i) default).weightUsed
          + ((disaggregatePrecipitation w g seed bs recs).getD (3 * i + 1)
              default).weightUsed
          + ((disaggregatePrecipitation w g seed bs recs).getD (3 * i + 2)
              default).weightUsed) = 1 →
        ((disaggregatePrecipitation w g seed bs recs).getD (3 * i) default).pr1h
          + ((disaggregatePrecipitation w g seed bs recs).getD (3 * i + 1) default).pr1h
          + ((disaggregatePrecipitation w g seed bs recs).getD (3 * i + 2) default).pr1h
        = (recs.getD i default).pr) := by
  intro i hi
  have e0 : (disaggregatePrecipitation w g seed bs recs).getD (3 * i) default
      = (recordRows (recs.getD i default)
          ((batchedSels w g seed bs recs).getD i default)).getD 0 default :=
    disagg_getD w g seed bs recs hbs i 0 hi (by omega)
  have e1 := disagg_getD w g seed bs recs hbs i 1 hi (by omega)
  have e2 := disagg_getD w g seed bs recs hbs i 2 hi (by omega)
  rw [e0, e1, e2, recordRows_getD_fields _ _ 0 (by omega),
    recordRows_getD_fields _ _ 1 (by omega), recordRows_getD_fields _ _ 2 (by omega)]
  constructor
  · show (recs.getD i default).pr * selWeight _ 0
        + (recs.getD i default).pr * selWeight _ 1
        + (recs.getD i default).pr * selWeight _ 2
      = (recs.getD i default).pr * (selWeight _ 0 + selWeight _ 1 + selWeight _ 2)
    ring
  · show selWeight _ 0 + selWeight _ 1 + selWeight _ 2 = 1 →
      (recs.getD i default).pr * selWeight _ 0
        + (recs.getD i default).pr * selWeight _ 1
        + (recs.getD i default).pr * selWeight _ 2
      = (recs.getD i default).pr
    intro h1
    have hdist : (recs.getD i default).pr * selWeight
          ((batchedSels w g seed bs recs).getD i default) 0
        + (recs.getD i default).pr * selWeight
            ((batchedSels w g seed bs recs).getD i default) 1
        + (recs.getD i default).pr * selWeight
            ((batchedSels w g seed bs recs).getD i default) 2
        = (recs.getD i default).pr
          * (selWeight ((batchedSels w g seed bs recs).getD i default) 0
            + selWeight ((batchedSels w g seed bs recs).getD i default) 1
            + selWeight ((batchedSels w g seed bs recs).getD i default) 2) := by
      ring
    rw [hdist, h1, mul_one]

/-- C1 amended witness: one record through `exTable` at batch size 10000. -/
theorem claim_C1_amended_witness :
    0 < 10000 ∧ (0 : Nat) < [exFut].length ∧
    (((disaggregatePrecipitation exTable (fun _ _ => 0) 42 10000 [exFut]).getD
          (3 * 0) default).pr1h
        + ((disaggregatePrecipitation exTable (fun _ _ => 0) 42 10000 [exFut]).getD
            (3 * 0 + 1) default).pr1h
        + ((disaggregatePrecipitation exTable (fun _ _ => 0) 42 10000 [exFut]).getD
            (3 * 0 + 2) default).pr1h
      = ([exFut].getD 0 default).pr
        * (((disaggregatePrecipitation exTable (fun _ _ => 0) 42 10000 [exFut]).getD
              (3 * 0) default).weightUsed
          + ((disaggregatePrecipitation exTable (fun _ _ => 0) 42 10000 [exFut]).getD
              (3 * 0 + 1) default).weightUsed
          + ((disaggregatePrecipitation exTable (fun _ _ => 0) 42 10000 [exFut]).getD
              (3 * 0 + 2) default).weightUsed) ∧
      ((((disaggregatePrecipitation exTable (fun _ _ => 0) 42 10000 [exFut]).getD
            (3 * 0) default).weightUsed
          + ((disaggregatePrecipitation exTable (fun _ _ => 0) 42 10000 [exFut]).getD
              (3 * 0 + 1) default).weightUsed
          + ((disaggregatePrecipitation exTable (fun _ _ => 0) 42 10000 [exFut]).getD
              (3 * 0 + 2) default).weightUsed) = 1 →
        ((disaggregatePrecipitation exTable (fun _ _ => 0) 42 10000 [exFut]).getD
            (3 * 0) default).pr1h
          + ((disaggregatePrecipitation exTable (fun _ _ => 0) 42 10000 [exFut]).getD
              (3 * 0 + 1) default).pr1h
          + ((disaggregatePrecipitation exTable (fun _ _ => 0) 42 10000 [exFut]).getD
              (3 * 0 + 2) default).pr1h
        = ([exFut].getD 0 default).pr)) :=
  ⟨by decide, by decide,
    claim_C1_amended exTable (fun _ _ => 0) 42 10000 [exFut] (by decide) 0 (by decide)⟩

/-- C1 counterexample: the weight builder itself (run on an even 3-hour
block) produces the stored triple (0.3333, 0.3333, 0.3333); disaggregating a
future record with `precipitation_total = 1` through that table yields three
hourly values summing to 0.9999, so mass conservation fails the claimed 1e-6
tolerance by two orders of magnitude. -/
theorem claim_C1_counterexample :
    weightBuilder exHourly exBlocks = Except.ok exTable ∧
    exFut.pr = 1 ∧
    ((disaggregatePrecipitation exTable (fun _ _ => 0) 42 10000 [exFut]).map
        (fun r => r.pr1h)).sum = 9999/10000 ∧
    ¬ |((disaggregatePrecipitation exTable (fun _ _ => 0) 42 10000 [exFut]).map
        (fun r => r.pr1h)).sum - exFut.pr| ≤ 1/1000000 :=
  ⟨by rfl, by rfl, by decide, by decide⟩

theorem weightBuilder_rows (hourly : List HourRecord) (blocks : List BlockRecord)
    (rows : List CsvRow) (hok : weightBuilder hourly blocks = Except.ok rows) :
    ∃ t', normalizeWeights (aggregateWeights (matchHourlyTo3Hourly
        (hourly.filter (fun r => 0 < r.pr)) (blocks.filter (fun r => 0 < r.pr))))
      = Except.ok t' ∧ rows = saveCsv t' := by
  have hwb : weightBuilder hourly blocks
      = Except.bind (normalizeWeights (aggregateWeights (matchHourlyTo3Hourly
          (hourly.filter (fun r => 0 < r.pr)) (blocks.filter (fun r => 0 < r.pr)))))
        (fun norm => Except.ok (saveCsv norm)) := rfl
  rw [hwb] at hok
  cases hnorm : normalizeWeights (aggregateWeights (matchHourlyTo3Hourly
      (hourly.filter (fun r => 0 < r.pr)) (blocks.filter (fun r => 0 < r.pr)))) with
  | error e =>
    rw [hnorm] at hok
    exact Except.noConfusion hok
  | ok t' =>
    rw [hnorm] at hok
    exact ⟨t', rfl, (Except.ok.inj hok).symm⟩

/-- C4 amended: in the weight table written by the builder, every calendar
key `(year, month, day, block-start hour)` that occurs at all has exactly 3
rows (hour_in_3h_block 0, 1, 2), and their saved weights sum to 1.0 within
3/20000 = 1.5e-4: each saved weight is the 4-decimal rounding of a per-slot
mean and the three exact means sum to exactly 1.  The tolerance 1e-6 of the
original claim is not met — see the counterexample. -/
theorem claim_C4_amended (hourly : List HourRecord) (blocks : List BlockRecord)
    (rows : List CsvRow) (y m d h : Nat)
    (hok : weightBuilder hourly blocks = Except.ok rows)
    (hpresent : ∃ c ∈ rows, c.year = y ∧ c.month = m ∧ c.day = d ∧ c.hour = h) :
    (rows.filter (fun c => c.year = y ∧ c.month = m ∧ c.day = d ∧ c.hour = h)).length
        = 3 ∧
    |(((rows.filter (fun c => c.year = y ∧ c.month = m ∧ c.day = d ∧ c.hour = h)).map
        (fun c => c.weight)).sum) - 1| ≤ 3/20000 := by
  obtain ⟨t', hnorm, hrws⟩ := weightBuilder_rows hourly blocks rows hok
  subst hrws
  set hbl := hourly.filter (fun r => 0 < r.pr) with hhbl
  set bbl := blocks.filter (fun r => 0 < r.pr) with hbbl
  set os := matchHourlyTo3Hourly hbl bbl with hosdef
  set agg := aggregateWeights os with haggdef
  set B := calBlocks hbl bbl y m d h with hBdef
  have haggne : agg ≠ [] := by
    intro hnil
    rw [hnil, show normalizeWeights ([] : List AggRow)
        = Except.error "ValueError: No objects to concatenate" from rfl] at hnorm
    exact Except.noConfusion hnorm
  have ht' : t' = (uniqFirst (agg.map rowLabel)).flatMap (normLabel agg) := by
    have h2 := normalizeWeights_ok agg haggne
    rw [hnorm] at h2
    exact Except.ok.inj h2
  subst ht'
  have h3agg : ∀ r ∈ agg, r.hourInBlock < 3 := by
    rw [haggdef]
    exact agg_hib os (by rw [hosdef]; exact matchObs_hib hbl bbl)
  have hperm1 : List.Perm
      (saveCsv ((uniqFirst (agg.map rowLabel)).flatMap (normLabel agg)))
      (agg.map csvOfAgg) :=
    (sortStable_perm _ _).trans (norm_map_csv_perm agg h3agg)
  have hfperm := hperm1.filter
    (fun c => decide (c.year = y ∧ c.month = m ∧ c.day = d ∧ c.hour = h))
  have hstep1 : (agg.map csvOfAgg).filter
      (fun c => c.year = y ∧ c.month = m ∧ c.day = d ∧ c.hour = h)
      = ((uniqFirst (os.map aggKey)).filter
          (fun k => k.year = y ∧ k.month = m ∧ k.day = d ∧ k.hour = h)).map
          (fun k => csvOfAgg (mkAggRow os k)) := by
    rw [haggdef, aggregateWeights, List.map_map, List.map_filter]
    have hcongr : (uniqFirst (os.map aggKey)).filter
        ((fun c => decide (c.year = y ∧ c.month = m ∧ c.day = d ∧ c.hour = h))
          ∘ (csvOfAgg ∘ mkAggRow os))
        = (uniqFirst (os.map aggKey)).filter
            (fun k => k.year = y ∧ k.month = m ∧ k.day = d ∧ k.hour = h) :=
      List.filter_congr (fun k _ => rfl)
    rw [hcongr]
    rfl
  have hstep2 : (uniqFirst (os.map aggKey)).filter
      (fun k => k.year = y ∧ k.month = m ∧ k.day = d ∧ k.hour = h)
      = uniqFirst (B.flatMap
          (fun _ => [calKey y m d h 0, calKey y m d h 1, calKey y m d h 2])) := by
    rw [hosdef, hBdef]
    exact keys_filter_eq hbl bbl y m d h
  obtain ⟨c, hc, hcy, hcm, hcd, hch⟩ := hpresent
  have hcmem : c ∈ (saveCsv ((uniqFirst (agg.map rowLabel)).flatMap
      (normLabel agg))).filter
      (fun c => c.year = y ∧ c.month = m ∧ c.day = d ∧ c.hour = h) :=
    List.mem_filter.mpr ⟨hc, by simp [hcy, hcm, hcd, hch]⟩
  have hfne := List.ne_nil_of_mem hcmem
  have hBne : B ≠ [] := by
    intro hBnil
    have hempty : (agg.map csvOfAgg).filter
        (fun c => c.year = y ∧ c.month = m ∧ c.day = d ∧ c.hour = h) = [] := by
      rw [hstep1, hstep2, hBnil]
      rfl
    have h0 := hfperm
    rw [hempty] at h0
    exact hfne h0.eq_nil
  have habsorb := uniqFirst_const_triple B (calKey y m d h 0) (calKey y m d h 1)
    (calKey y m d h 2) (calKey_nodup y m d h) hBne
  have hlist : (agg.map csvOfAgg).filter
      (fun c => c.year = y ∧ c.month = m ∧ c.day = d ∧ c.hour = h)
      = [csvOfAgg (mkAggRow os (calKey y m d h 0)),
         csvOfAgg (mkAggRow os (calKey y m d h 1)),
         csvOfAgg (mkAggRow os (calKey y m d h 2))] := by
    rw [hstep1, hstep2, habsorb]
    rfl
  have hw : ∀ i, i < 3 → (csvOfAgg (mkAggRow os (calKey y m d h i))).weight
      = round4 ((B.map (fun blk => (obsAt hbl blk i).weight)).sum / (B.length : ℚ)) := by
    intro i hi
    have hkg : keyGroup os (calKey y m d h i) = B.map (fun blk => obsAt hbl blk i) := by
      rw [keyGroup, hosdef, hBdef]
      exact os_filter_key hbl bbl y m d h i hi
    have hwm : (csvOfAgg (mkAggRow os (calKey y m d h i))).weight
        = round4 (round4 (((keyGroup os (calKey y m d h i)).map (fun o => o.weight)).sum
            / ((keyGroup os (calKey y m d h i)).length : ℚ))) := rfl
    rw [hwm, round4_idem, hkg, List.map_map, List.length_map]
    rfl
  have hmemB : ∀ blk ∈ B, 0 < (blockVals hbl blk).sum := by
    intro blk hblk
    rw [hBdef, calBlocks] at hblk
    exact (of_decide_eq_true (List.mem_filter.mp hblk).2).2.2.2.2
  have hS : (B.map (fun blk => (obsAt hbl blk 0).weight)).sum
      + (B.map (fun blk => (obsAt hbl blk 1).weight)).sum
      + (B.map (fun blk => (obsAt hbl blk 2).weight)).sum = (B.length : ℚ) := by
    rw [← List.sum_map_add, ← List.sum_map_add]
    have hcongr : B.map (fun blk => (obsAt hbl blk 0).weight
          + (obsAt hbl blk 1).weight + (obsAt hbl blk 2).weight)
        = B.map (fun _ => (1 : ℚ)) :=
      List.map_congr_left (fun blk hblk => obsAt_weight_triple hbl blk (hmemB blk hblk))
    rw [hcongr, sum_map_const_one]
  have hn0 : ((B.length : ℚ)) ≠ 0 := by
    rw [Nat.cast_ne_zero]
    exact fun h0 => hBne (List.eq_nil_of_length_eq_zero h0)
  have hmean : (B.map (fun blk => (obsAt hbl blk 0).weight)).sum / (B.length : ℚ)
      + (B.map (fun blk => (obsAt hbl blk 1).weight)).sum / (B.length : ℚ)
      + (B.map (fun blk => (obsAt hbl blk 2).weight)).sum / (B.length : ℚ) = 1 := by
    rw [div_add_div_same, div_add_div_same, hS, div_self hn0]
  constructor
  · have hlen := hfperm.length_eq
    rw [hlist] at hlen
    exact hlen
  · have hp2 := hfperm.map (fun c => c.weight)
    rw [hlist] at hp2
    rw [hp2.sum_eq]
    have hsum3 : ([csvOfAgg (mkAggRow os (calKey y m d h 0)),
        csvOfAgg (mkAggRow os (calKey y m d h 1)),
        csvOfAgg (mkAggRow os (calKey y m d h 2))].map (fun c => c.weight)).sum
        = (csvOfAgg (mkAggRow os (calKey y m d h 0))).weight
          + (csvOfAgg (mkAggRow os (calKey y m d h 1))).weight
          + (csvOfAgg (mkAggRow os (calKey y m d h 2))).weight := by
      simp only [List.map_cons, List.map_nil, List.sum_cons, List.sum_nil]
      ring
    rw [hsum3, hw 0 (by omega), hw 1 (by omega), hw 2 (by omega)]
    have e0 := abs_round4_sub
      ((B.map (fun blk => (obsAt hbl blk 0).weight)).sum / (B.length : ℚ))
    have e1 := abs_round4_sub
      ((B.map (fun blk => (obsAt hbl blk 1).weight)).sum / (B.length : ℚ))
    have e2 := abs_round4_sub
      ((B.map (fun blk => (obsAt hbl blk 2).weight)).sum / (B.length : ℚ))
    have hrw : round4 ((B.map (fun blk => (obsAt hbl blk 0).weight)).sum / (B.length : ℚ))
        + round4 ((B.map (fun blk => (obsAt hbl blk 1).weight)).sum / (B.length : ℚ))
        + round4 ((B.map (fun blk => (obsAt hbl blk 2).weight)).sum / (B.length : ℚ)) - 1
        = (round4 ((B.map (fun blk => (obsAt hbl blk 0).weight)).sum / (B.length : ℚ))
            - (B.map (fun blk => (obsAt hbl blk 0).weight)).sum / (B.length : ℚ))
          + (round4 ((B.map (fun blk => (obsAt hbl blk 1).weight)).sum / (B.length : ℚ))
            - (B.map (fun blk => (obsAt hbl blk 1).weight)).sum / (B.length : ℚ))
          + (round4 ((B.map (fun blk => (obsAt hbl blk 2).weight)).sum / (B.length : ℚ))
            - (B.map (fun blk => (obsAt hbl blk 2).weight)).sum / (B.length : ℚ)) := by
      rw [← hmean]
      ring
    rw [hrw]
    have habs1 := abs_add
      ((round4 ((B.map (fun blk => (obsAt hbl blk 0).weight)).sum / (B.length : ℚ))
          - (B.map (fun blk => (obsAt hbl blk 0).weight)).sum / (B.length : ℚ))
        + (round4 ((B.map (fun blk => (obsAt hbl blk 1).weight)).sum / (B.length : ℚ))
          - (B.map (fun blk => (obsAt hbl blk 1).weight)).sum / (B.length : ℚ)))
      (round4 ((B.map (fun blk => (obsAt hbl blk 2).weight)).sum / (B.length : ℚ))
        - (B.map (fun blk => (obsAt hbl blk 2).weight)).sum / (B.length : ℚ))
    have habs2 := abs_add
      (round4 ((B.map (fun blk => (obsAt hbl blk 0).weight)).sum / (B.length : ℚ))
        - (B.map (fun blk => (obsAt hbl blk 0).weight)).sum / (B.length : ℚ))
      (round4 ((B.map (fun blk => (obsAt hbl blk 1).weight)).sum / (B.length : ℚ))
        - (B.map (fun blk => (obsAt hbl blk 1).weight)).sum / (B.length : ℚ))
    linarith

/-- C4 counterexample: the builder run on an even block stores the triple
(0.3333, 0.3333, 0.3333) for calendar key (1995, 7, 15, 6); the saved
weights sum to 0.9999, which misses 1.0 by 1e-4 — far beyond the claimed
1e-6 tolerance. -/
theorem claim_C4_counterexample :
    weightBuilder exHourly exBlocks = Except.ok exTable ∧
    ((exTable.filter (fun c => c.year = 1995 ∧ c.month = 7 ∧ c.day = 15 ∧ c.hour = 6)).map
        (fun c => c.weight)).sum = 9999/10000 ∧
    ¬ |((exTable.filter (fun c => c.year = 1995 ∧ c.month = 7 ∧ c.day = 15
          ∧ c.hour = 6)).map (fun c => c.weight)).sum - 1| ≤ 1/1000000 :=
  ⟨by rfl, by decide, by decide⟩

/-- C4 amended witness: the concrete builder output `exTable`. -/
theorem claim_C4_amended_witness :
    weightBuilder exHourly exBlocks = Except.ok exTable ∧
    (∃ c ∈ exTable, c.year = 1995 ∧ c.month = 7 ∧ c.day = 15 ∧ c.hour = 6) ∧
    ((exTable.filter (fun c => c.year = 1995 ∧ c.month = 7 ∧ c.day = 15
        ∧ c.hour = 6)).length = 3 ∧
     |((exTable.filter (fun c => c.year = 1995 ∧ c.month = 7 ∧ c.day = 15
          ∧ c.hour = 6)).map (fun c => c.weight)).sum - 1| ≤ 3/20000) :=
  ⟨by rfl, by decide,
    claim_C4_amended exHourly exBlocks exTable 1995 7 15 6 (by rfl) (by decide)⟩

/-- C10: the no-data fallback branch of `normalize_weights` (the branch that
decomposes the undefined `day_num` and would fabricate uniform rows) is
unreachable: every label iterated over comes from the table itself, so its
filtered subset is nonempty and the `UnboundLocalError` of that branch is
never raised, whatever the input table. -/
theorem claim_C10_fallback_unreachable (t : List AggRow) :
    normalizeWeights t ≠
      Except.error "UnboundLocalError: day_num referenced before assignment" := by
  by_cases ht : t = []
  · subst ht
    intro h
    have : "ValueError: No objects to concatenate"
        = "UnboundLocalError: day_num referenced before assignment" :=
      Except.error.inj h
    exact absurd this (by decide)
  · rw [normalizeWeights_ok t ht]
    intro h
    exact Except.noConfusion h

/-- C6: for every historical 3-hour block, the pairing stage reads the three
constituent hourly amounts (a missing hour contributing 0); when their sum is
0 the block contributes no observation, and otherwise it emits exactly three
observations with `weight[i] = hourly[i] / sum`, `hour_in_block = i`, tagged
with the block's calendar key (year, month, day, block-start hour).  The
hypothesis that hourly amounts are non-negative holds for the pipeline, whose
loader keeps only positive values. -/
theorem claim_C6_pairing (hourly : List HourRecord) (b : BlockRecord)
    (hpos : ∀ r ∈ hourly, 0 ≤ r.pr) :
    ((blockVals hourly b).sum = 0 → blockObs hourly b = []) ∧
    ((blockVals hourly b).sum ≠ 0 →
      (blockObs hourly b).length = 3 ∧
      ∀ i, i < 3 →
        ((blockObs hourly b).getD i default).weight
            = (blockVals hourly b).getD i 0 / (blockVals hourly b).sum ∧
        ((blockObs hourly b).getD i default).hourInBlock = i ∧
        ((blockObs hourly b).getD i default).year = b.time.year ∧
        ((blockObs hourly b).getD i default).month = b.time.month ∧
        ((blockObs hourly b).getD i default).day = b.time.day ∧
        ((blockObs hourly b).getD i default).hour = b.time.hour) := by
  have hlook : ∀ u, 0 ≤ lookupHourly hourly u := by
    intro u
    rw [lookupHourly]
    cases hf : hourly.find? (fun r => r.time == u) with
    | none => exact le_refl 0
    | some r => exact hpos r (List.mem_of_find?_eq_some hf)
  have hnonneg : 0 ≤ (blockVals hourly b).sum := by
    rw [blockVals]
    have h0 := hlook b.time.abs
    have h1 := hlook (b.time.abs + 1)
    have h2 := hlook (b.time.abs + 2)
    simp only [List.sum_cons, List.sum_nil, add_zero]
    linarith
  constructor
  · intro hzero
    rw [blockObs]
    simp only [hzero]
    rw [if_neg (lt_irrefl 0)]
  · intro hne
    have hpos2 : 0 < (blockVals hourly b).sum := lt_of_le_of_ne hnonneg (Ne.symm hne)
    rw [blockObs]
    rw [if_pos hpos2]
    refine ⟨rfl, ?_⟩
    intro i hi
    interval_cases i <;>
      exact ⟨rfl, rfl, rfl, rfl, rfl, rfl⟩

/-- C6 witness: the concrete hourly series `exHourly` and the block of
`exBlocks`. -/
theorem claim_C6_pairing_witness :
    (∀ r ∈ exHourly, 0 ≤ r.pr) ∧
    (((blockVals exHourly ⟨⟨100, 1995, 7, 15, 6⟩, 3⟩).sum = 0 →
        blockObs exHourly ⟨⟨100, 1995, 7, 15, 6⟩, 3⟩ = []) ∧
     ((blockVals exHourly ⟨⟨100, 1995, 7, 15, 6⟩, 3⟩).sum ≠ 0 →
        (blockObs exHourly ⟨⟨100, 1995, 7, 15, 6⟩, 3⟩).length = 3 ∧
        ∀ i, i < 3 →
          ((blockObs exHourly ⟨⟨100, 1995, 7, 15, 6⟩, 3⟩).getD i default).weight
              = (blockVals exHourly ⟨⟨100, 1995, 7, 15, 6⟩, 3⟩).getD i 0
                / (blockVals exHourly ⟨⟨100, 1995, 7, 15, 6⟩, 3⟩).sum ∧
          ((blockObs exHourly ⟨⟨100, 1995, 7, 15, 6⟩, 3⟩).getD i default).hourInBlock = i ∧
          ((blockObs exHourly ⟨⟨100, 1995, 7, 15, 6⟩, 3⟩).getD i default).year = 1995 ∧
          ((blockObs exHourly ⟨⟨100, 1995, 7, 15, 6⟩, 3⟩).getD i default).month = 7 ∧
          ((blockObs exHourly ⟨⟨100, 1995, 7, 15, 6⟩, 3⟩).getD i default).day = 15 ∧
          ((blockObs exHourly ⟨⟨100, 1995, 7, 15, 6⟩, 3⟩).getD i default).hour = 6)) :=
  ⟨by decide, claim_C6_pairing exHourly ⟨⟨100, 1995, 7, 15, 6⟩, 3⟩ (by decide)⟩

/-- C5 counterexample: two weight observations that agree on
(month, day, block-start hour, hour-in-block, label hour) but come from
different historical years are NOT pooled into one group by
`aggregate_weights`: the output has two rows keeping the per-year weights
1/5 and 3/5, and no row carries the cross-year mean 2/5 that pooling across
years would produce. -/
theorem claim_C5_counterexample :
    obsA.month = obsB.month ∧ obsA.day = obsB.day ∧ obsA.hour = obsB.hour ∧
    obsA.hourInBlock = obsB.hourInBlock ∧ obsA.labelHour = obsB.labelHour ∧
    obsA.year ≠ obsB.year ∧
    (aggregateWeights [obsA, obsB]).length = 2 ∧
    (∀ r ∈ aggregateWeights [obsA, obsB], r.weight = 1/5 ∨ r.weight = 3/5) ∧
    (∀ r ∈ aggregateWeights [obsA, obsB], r.weight ≠ 2/5) := by
  decide

/-- C5 amended: `aggregate_weights` groups by the full key
`(year_month_day_hour, year, month, day, hour, hour_in_3h_block)` — which
contains the historical year, so grouping is per-year, not pooled across
years — and each output row's `weight_mean` is the 4-decimal-rounded mean of
exactly the observations with that full key (all of which carry the row's
year). -/
theorem claim_C5_amended (os : List WeightObs) (r : AggRow)
    (hr : r ∈ aggregateWeights os) :
    keyGroup os ⟨r.year, r.month, r.day, r.hour, r.labelHour, r.hourInBlock⟩ ≠ [] ∧
    r.weightMean = round4
      (((keyGroup os ⟨r.year, r.month, r.day, r.hour, r.labelHour, r.hourInBlock⟩).map
          (·.weight)).sum
        / ((keyGroup os
            ⟨r.year, r.month, r.day, r.hour, r.labelHour, r.hourInBlock⟩).length : ℚ)) ∧
    (∀ o ∈ keyGroup os ⟨r.year, r.month, r.day, r.hour, r.labelHour, r.hourInBlock⟩,
      o.year = r.year) := by
  rcases List.mem_map.mp hr with ⟨k, hk, rfl⟩
  have hkey : (⟨(mkAggRow os k).year, (mkAggRow os k).month, (mkAggRow os k).day,
      (mkAggRow os k).hour, (mkAggRow os k).labelHour,
      (mkAggRow os k).hourInBlock⟩ : AggKey) = k := by
    cases k
    rfl
  rw [hkey]
  refine ⟨?_, rfl, ?_⟩
  · rcases List.mem_map.mp ((mem_uniqFirst _ _).mp hk) with ⟨o, ho, hok⟩
    refine List.ne_nil_of_mem (a := o) ?_
    simp only [keyGroup, List.mem_filter, decide_eq_true_eq]
    exact ⟨ho, hok⟩
  · intro o ho
    rw [keyGroup] at ho
    have hok : aggKey o = k := of_decide_eq_true (List.mem_filter.mp ho).2
    have hy : (aggKey o).year = k.year := by rw [hok]
    exact hy

/-- C5 amended witness: the first aggregated row of `[obsA, obsB]`. -/
theorem claim_C5_amended_witness :
    (⟨1995, 7, 15, 6, 6, 0, 1/5, 1, 1, 5, 1/5⟩ : AggRow) ∈ aggregateWeights [obsA, obsB] ∧
    (keyGroup [obsA, obsB] ⟨1995, 7, 15, 6, 6, 0⟩ ≠ [] ∧
     (1 : ℚ)/5 = round4
        (((keyGroup [obsA, obsB] ⟨1995, 7, 15, 6, 6, 0⟩).map (·.weight)).sum
          / ((keyGroup [obsA, obsB] ⟨1995, 7, 15, 6, 6, 0⟩).length : ℚ)) ∧
     (∀ o ∈ keyGroup [obsA, obsB] ⟨1995, 7, 15, 6, 6, 0⟩, o.year = 1995)) :=
  ⟨by decide, claim_C5_amended [obsA, obsB] ⟨1995, 7, 15, 6, 6, 0, 1/5, 1, 1, 5, 1/5⟩ (by decide)⟩

/-- C7 counterexample: in the sampler actually invoked by the driver
(`ultra_fast_weight_selection`), a single failed draw degrades immediately to
the averaged fallback: with a candidate set whose drawn year 1995 is
incomplete while year 1996 has a complete triple, and a draw stream whose
next draw would select 1996, the result is already `EGZAKT_AVG` — no retry
with a fresh draw happens. -/
theorem claim_C7_counterexample :
    ultraFastWeightSelection tableC7 drawC7 [exFut] 0 =
      [⟨3/5, 1/5, 1/5, MatchLevel.EGZAKT_AVG, some ⟨1995, 7, 15, 6⟩⟩] ∧
    completeTriple (yearDataOf
      (tableC7.filter (fun x => keyExactW x = keyExactFut exFut)) 1996) = true ∧
    yearChosen (tableC7.filter (fun x => keyExactW x = keyExactFut exFut))
      (drawC7 1) = 1996 := by
  decide

/-- C7 amended: the sampler invoked by the driver draws a year exactly once;
whenever that single draw's observations do not exactly cover {0,1,2} it
degrades immediately — without any retry — to the candidate-set average:
per-slot means over all candidates, normalized by their (positive) total,
with the match level suffixed `_AVG` and the first candidate row as
reference.  (Only the legacy `stochastic_weight_selection`, which the driver
does not call, retries up to 10 attempts.) -/
theorem claim_C7_amended (pw : List CsvRow) (level : MatchLevel) (draw : Nat)
    (hincomplete : completeTriple (yearDataOf pw (yearChosen pw draw)) = false)
    (hpop : avgPopulated pw = true)
    (htot : 0 < hibMean pw 0 + hibMean pw 1 + hibMean pw 2) :
    sampleFrom pw level draw =
      ⟨hibMean pw 0 / (hibMean pw 0 + hibMean pw 1 + hibMean pw 2),
       hibMean pw 1 / (hibMean pw 0 + hibMean pw 1 + hibMean pw 2),
       hibMean pw 2 / (hibMean pw 0 + hibMean pw 1 + hibMean pw 2),
       avgOf level, some (labelOf (pw.headD default))⟩ := by
  rw [sampleFrom]
  simp only [hincomplete, Bool.false_eq_true, if_false]
  rw [sampleAvg, if_pos hpop, if_pos htot]

/-- C7 amended witness at the concrete candidate set `tableC7` with draw 0. -/
theorem claim_C7_amended_witness :
    completeTriple (yearDataOf tableC7 (yearChosen tableC7 0)) = false ∧
    avgPopulated tableC7 = true ∧
    0 < hibMean tableC7 0 + hibMean tableC7 1 + hibMean tableC7 2 ∧
    sampleFrom tableC7 MatchLevel.EGZAKT 0 =
      ⟨hibMean tableC7 0 / (hibMean tableC7 0 + hibMean tableC7 1 + hibMean tableC7 2),
       hibMean tableC7 1 / (hibMean tableC7 0 + hibMean tableC7 1 + hibMean tableC7 2),
       hibMean tableC7 2 / (hibMean tableC7 0 + hibMean tableC7 1 + hibMean tableC7 2),
       avgOf MatchLevel.EGZAKT, some (labelOf (tableC7.headD default))⟩ :=
  ⟨by decide, by decide, by decide,
    claim_C7_amended tableC7 MatchLevel.EGZAKT 0 (by decide) (by decide) (by decide)⟩

/-- C8 counterexample: with a nonempty candidate set whose averaged triple is
incomplete (only slot 0 occurs), the sampler used by the driver leaves the
record at the uniform default with match level `EGYENLETES` (UNIFORM), not
`HIBA` (ERROR) as the claim states. -/
theorem claim_C8_counterexample :
    ultraFastWeightSelection tableC8 (fun _ => 0) [exFut] 0 = [uniformSel] ∧
    uniformSel.level = MatchLevel.EGYENLETES ∧
    MatchLevel.EGYENLETES ≠ MatchLevel.HIBA ∧
    tableC8.filter (fun x => keyExactW x = keyExactFut exFut) ≠ [] ∧
    avgPopulated (tableC8.filter (fun x => keyExactW x = keyExactFut exFut)) = false := by
  decide

/-- C8 amended: whenever the drawn year's triple is incomplete and the
averaged triple does not populate all three slots, the sampler invoked by the
driver returns the uniform vector [1/3, 1/3, 1/3] with match level
`EGYENLETES` (UNIFORM) and no reference; `HIBA` (ERROR) is returned only by
the legacy `stochastic_weight_selection`, which the driver does not call. -/
theorem claim_C8_amended (pw : List CsvRow) (level : MatchLevel) (draw : Nat)
    (hincomplete : completeTriple (yearDataOf pw (yearChosen pw draw)) = false)
    (hpop : avgPopulated pw = false) :
    sampleFrom pw level draw = uniformSel ∧ uniformSel.level = MatchLevel.EGYENLETES := by
  constructor
  · rw [sampleFrom]
    simp only [hincomplete, Bool.false_eq_true, if_false]
    rw [sampleAvg, if_neg]
    simp [hpop]
  · rfl

/-- C8 amended witness at the concrete candidate set `tableC8`. -/
theorem claim_C8_amended_witness :
    completeTriple (yearDataOf tableC8 (yearChosen tableC8 0)) = false ∧
    avgPopulated tableC8 = false ∧
    (sampleFrom tableC8 MatchLevel.EGZAKT 0 = uniformSel ∧
      uniformSel.level = MatchLevel.EGYENLETES) :=
  ⟨by decide, by decide, claim_C8_amended tableC8 MatchLevel.EGZAKT 0 (by decide) (by decide)⟩

/-- C9: `save_csv` overwrites the `weight` column with `weight_mean` (the
4-decimal-rounded pre-normalization aggregated mean) just before writing, so
every saved row's weight equals its source row's rounded `weight_mean` and
the per-key renormalization performed by `normalize_weights` has no effect on
the saved output: saving the normalized table yields a permutation of saving
the aggregated table directly.  (The slot-index hypothesis holds for every
table the aggregation stage produces.) -/
theorem claim_C9_save_overwrites (t t' : List AggRow)
    (h3 : ∀ r ∈ t, r.hourInBlock < 3)
    (hok : normalizeWeights t = Except.ok t') :
    List.Perm (saveCsv t') (saveCsv t) ∧
    ∀ c ∈ saveCsv t', ∃ r ∈ t, c = csvOfAgg r ∧ c.weight = round4 r.weightMean := by
  have ht : t ≠ [] := by
    intro h
    subst h
    rw [show normalizeWeights ([] : List AggRow)
        = Except.error "ValueError: No objects to concatenate" from rfl] at hok
    exact Except.noConfusion hok
  have heq : t' = (uniqFirst (t.map rowLabel)).flatMap (normLabel t) := by
    have h2 := normalizeWeights_ok t ht
    rw [hok] at h2
    exact Except.ok.inj h2
  subst heq
  have hperm := norm_map_csv_perm t h3
  have hsave1 : List.Perm (saveCsv ((uniqFirst (t.map rowLabel)).flatMap (normLabel t)))
      (((uniqFirst (t.map rowLabel)).flatMap (normLabel t)).map csvOfAgg) :=
    sortStable_perm _ _
  have hsave2 : List.Perm (saveCsv t) (t.map csvOfAgg) := sortStable_perm _ _
  refine ⟨hsave1.trans (hperm.trans hsave2.symm), ?_⟩
  intro c hc
  have hct : c ∈ t.map csvOfAgg := (hsave1.trans hperm).mem_iff.mp hc
  rcases List.mem_map.mp hct with ⟨r, hr, hcr⟩
  exact ⟨r, hr, hcr.symm, by rw [← hcr]; rfl⟩

/-- C9 witness at the one-row aggregated table `tableC9`. -/
theorem claim_C9_witness :
    (∀ r ∈ tableC9, r.hourInBlock < 3) ∧
    normalizeWeights tableC9 = Except.ok tableC9norm ∧
    (List.Perm (saveCsv tableC9norm) (saveCsv tableC9) ∧
     ∀ c ∈ saveCsv tableC9norm, ∃ r ∈ tableC9,
       c = csvOfAgg r ∧ c.weight = round4 r.weightMean) :=
  ⟨by decide, by rfl,
    claim_C9_save_overwrites tableC9 tableC9norm (by decide) (by rfl)⟩

/-- C2: the per-record outcome is NOT a function of the seed and the record's
identity alone.  With identical weight table, identical generator family,
identical seed 42 and identical input records, runs with batch size 1 and
batch size 2 assign the second record different `weight_used` (1/2 versus
1/10): the code seeds a fresh generator per batch with `seed + batch_start`
and hands out draws by position inside the batch, so the outcome depends on
the batching. -/
theorem claim_C2_batch_dependence :
    ((disaggregatePrecipitation tableC2 drawC2 42 1 recsC2).getD 3 default).weightUsed
        = 1/2 ∧
    ((disaggregatePrecipitation tableC2 drawC2 42 2 recsC2).getD 3 default).weightUsed
        = 1/10 ∧
    ((disaggregatePrecipitation tableC2 drawC2 42 1 recsC2).getD 3 default).weightUsed
        ≠ ((disaggregatePrecipitation tableC2 drawC2 42 2 recsC2).getD 3 default).weightUsed ∧
    ((disaggregatePrecipitation tableC2 drawC2 42 1 recsC2).getD 3 default).cellId
        = ((disaggregatePrecipitation tableC2 drawC2 42 2 recsC2).getD 3 default).cellId := by
  decide

end Climatology
